import Mathlib

/-!
Verification of the dependency-graph construction and upgrade-strategy
decision engine of the `falcon_fix_v3` package.

The development shallowly embeds `dependency_graph.py` and
`upgrade_strategy.py`:

* Python strings are `String` / `List Char`; all text processing
  (regular expressions, `str.split`, `str.replace`, `str.strip`) is
  re-implemented as structurally recursive functions whose behaviour
  matches the CPython semantics on the inputs the program handles.
* Python `float` arithmetic on the graph scores is modelled with exact
  rationals (`ℚ`): the score formulas only involve small integer
  divisions, products and clamping.
* Python `dict`s are modelled as insertion-ordered association lists
  (CPython dicts preserve insertion order); keys are inserted at most
  once, mirroring the guarded insertions of the source.
* Raised exceptions (the tuple-unpacking `ValueError` of
  `ga.split(":")`, the `IndexError` of `split(':')[1]`) are modelled by
  `Option`: `none` is a raised exception.
-/

/-! ## Character and list utilities (Python string primitives) -/

/-- Whitespace as recognised by Python's `str.strip()` and the regex
class `\s` (the ASCII range; the program's tree glyphs and versions
contain no exotic Unicode whitespace). -/
def isPySpace (c : Char) : Bool :=
  c = ' ' || c = '\t' || c = '\n' || c = '\r' || c = '\x0B' || c = '\x0C'

/-- Python `str.strip()`: remove leading and trailing whitespace. -/
def pyStrip (cs : List Char) : List Char :=
  ((cs.dropWhile isPySpace).reverse.dropWhile isPySpace).reverse

/-- Python `str.split(sep)` for a single-character separator `sep`
(always returns at least one piece; `"".split(c) == [""]`). -/
def splitOnChar (sep : Char) : List Char → List (List Char)
  | [] => [[]]
  | c :: rest =>
    let r := splitOnChar sep rest
    if c = sep then [] :: r
    else
      match r with
      | [] => [[c]]
      | h :: t => (c :: h) :: t

/-- Python `sub in s` substring containment (for a non-empty pattern
this is exactly "some contiguous run of `s` equals `sub`"). -/
def containsSub (pat : List Char) : List Char → Bool
  | [] => pat.isEmpty
  | c :: rest => pat.isPrefixOf (c :: rest) || containsSub pat rest

/-- One fuel step of `removeSub`; the fuel is an upper bound on the
number of characters consumed, so `fuel = cs.length` is always enough
for a non-empty pattern. -/
def removeSubAux (pat : List Char) : Nat → List Char → List Char
  | 0, cs => cs
  | _ + 1, [] => []
  | fuel + 1, c :: rest =>
    if pat.isPrefixOf (c :: rest) then
      removeSubAux pat fuel ((c :: rest).drop pat.length)
    else
      c :: removeSubAux pat fuel rest

/-- Python `s.replace(pat, "")` for a non-empty `pat`: delete the
left-to-right non-overlapping occurrences of `pat`. -/
def removeSub (pat cs : List Char) : List Char :=
  removeSubAux pat cs.length cs

/-- Accumulator-passing extraction of the maximal digit runs. -/
def digitRunsAux : List Char → List Char → List (List Char)
  | acc, [] => if acc.isEmpty then [] else [acc.reverse]
  | acc, c :: rest =>
    if c.isDigit then digitRunsAux (c :: acc) rest
    else if acc.isEmpty then digitRunsAux [] rest
    else acc.reverse :: digitRunsAux [] rest

/-- Python `re.findall(r'\d+', s)`: the maximal runs of decimal digits
of `s`, in order. -/
def digitRuns (cs : List Char) : List (List Char) :=
  digitRunsAux [] cs

/-- Python `int` on a non-empty string of decimal digits. -/
def digitsToNat (run : List Char) : Nat :=
  run.foldl (fun n c => n * 10 + (c.toNat - 48)) 0

/-! ## Version utilities (`upgrade_strategy.py`, lines 134-201) -/

/-- `parse_version`: strip the first matching qualifier of
`["SNAPSHOT", "Final", "RELEASE", "GA"]` (removing its `-q` and `.q`
spellings), then read the first three digit runs as
major/minor/patch, defaulting missing components to 0. -/
def parse_version (version : String) : Nat × Nat × Nat × String :=
  let qualifiers : List String := ["SNAPSHOT", "Final", "RELEASE", "GA"]
  let found := qualifiers.find? (fun q => containsSub q.toList version.toList)
  let qualifier := match found with
    | some q => q
    | none => ""
  let clean_version : List Char := match found with
    | some q => removeSub ('.' :: q.toList) (removeSub ('-' :: q.toList) version.toList)
    | none => version.toList
  let parts := digitRuns clean_version
  let major := match parts with
    | p0 :: _ => digitsToNat p0
    | [] => 0
  let minor := match parts with
    | _ :: p1 :: _ => digitsToNat p1
    | _ => 0
  let patch := match parts with
    | _ :: _ :: p2 :: _ => digitsToNat p2
    | _ => 0
  (major, minor, patch, qualifier)

/-- `is_same_major_minor`: equality of the parsed major and minor
components. -/
def is_same_major_minor (v1 v2 : String) : Bool :=
  let p1 := parse_version v1
  let p2 := parse_version v2
  p1.1 = p2.1 && p1.2.1 = p2.2.1

/-- `is_same_major`: equality of the parsed major components. -/
def is_same_major (v1 v2 : String) : Bool :=
  (parse_version v1).1 = (parse_version v2).1

/-- `version_jump_type`: `"major"` when the majors differ, else
`"minor"` when the minors differ, else `"patch"`. -/
def version_jump_type (from_v to_v : String) : String :=
  let p1 := parse_version from_v
  let p2 := parse_version to_v
  if p1.1 ≠ p2.1 then "major"
  else if p1.2.1 ≠ p2.2.1 then "minor"
  else "patch"

/-! ## Data model (`dependency_graph.py`, lines 29-90) -/

/-- `DependencyNode` (dataclass): the per-dependency record.
Score floats are modelled as exact rationals. -/
structure DependencyNode where
  ga : String
  version : String
  depth : Nat := 0
  is_direct : Bool := false
  parents : List String := []
  children : List String := []
  centrality_score : ℚ := 0
  impact_score : ℚ := 0

/-- `DependencyGraph` state: the insertion-ordered node map plus the
recorded root project. -/
structure DependencyGraph where
  nodes : List (String × DependencyNode) := []
  root_project : Option String := none

/-- `self.nodes[ga]` / `ga in self.nodes`: ordered-dict lookup. -/
def lookupGA (nodes : List (String × DependencyNode)) (ga : String) :
    Option DependencyNode :=
  match nodes with
  | [] => none
  | (k, n) :: rest => if k = ga then some n else lookupGA rest ga

/-- In-place mutation of the node stored under `ga` (a CPython dict
holds the node by reference; updating it preserves the entry order). -/
def updateGA : List (String × DependencyNode) → String →
    (DependencyNode → DependencyNode) → List (String × DependencyNode)
  | [], _, _ => []
  | (k, n) :: rest, ga, f =>
    (if k = ga then (k, f n) else (k, n)) :: updateGA rest ga f

/-! ## Tree parsing (`dependency_graph.py`, lines 92-255) -/

/-- The characters of the regex class `[│├└─\s]` used for the tree
prefix. -/
def isTreePrefixChar (c : Char) : Bool :=
  c = '│' || c = '├' || c = '└' || c = '─' || isPySpace c

/-- `_calculate_depth`: count `│` in the leading tree-prefix run, plus
1 if a `├` or `└` occurs in it. -/
def calculate_depth (line : List Char) : Nat :=
  let pfx := line.takeWhile isTreePrefixChar
  pfx.count '│' + (if pfx.contains '├' || pfx.contains '└' then 1 else 0)

/-- Match the regex `\s*\([^)]*\)\s*` at the start of `cs`; on success
return what follows the (greedy) match. -/
def matchParenAt (cs : List Char) : Option (List Char) :=
  match cs.dropWhile isPySpace with
  | '(' :: rest =>
    match rest.dropWhile (fun c => c != ')') with
    | ')' :: rest2 => some (rest2.dropWhile isPySpace)
    | _ => none
  | _ => none

/-- Fuel-indexed scan for `subParens`; every step consumes at least one
character, so `fuel = cs.length` suffices. -/
def subParensAux : Nat → List Char → List Char
  | 0, cs => cs
  | _ + 1, [] => []
  | fuel + 1, c :: rest =>
    match matchParenAt (c :: rest) with
    | some remainder => subParensAux fuel remainder
    | none => c :: subParensAux fuel rest

/-- Python `re.sub(r'\s*\([^)]*\)\s*', '', s)`: delete every
left-to-right occurrence of a parenthesised note together with the
whitespace around it. -/
def subParens (cs : List Char) : List Char :=
  subParensAux cs.length cs

/-- `_extract_ga_version`: strip the tree prefix, delete parenthesised
notes, strip whitespace, split on `':'`; with at least three parts the
key is `parts[0] ++ ":" ++ parts[1]` and the version is the last part,
otherwise the line yields nothing. -/
def extract_ga_version (line : List Char) : Option (String × String) :=
  let clean0 := line.dropWhile isTreePrefixChar
  let clean1 := subParens clean0
  let clean2 := pyStrip clean1
  if clean2.isEmpty then none
  else
    match splitOnChar ':' clean2 with
    | g :: a :: r :: rs =>
      some (String.mk (g ++ ':' :: a), String.mk ((r :: rs).getLastD r))
    | _ => none

/-- The in-flight parser state: graph fields plus the
`depth_parents` chain (depth level → most recent key at that level). -/
structure ParseState where
  nodes : List (String × DependencyNode) := []
  root_project : Option String := none
  depth_parents : Nat → Option String := fun _ => none

/-- First half of `_add_node`: `if ga not in self.nodes: self.nodes[ga]
= DependencyNode(...)` — create the node at its first sighting; a later
sighting changes nothing here. -/
def insertNewNode (nodes : List (String × DependencyNode))
    (ga version : String) (depth : Nat) (is_direct : Bool) :
    List (String × DependencyNode) :=
  if (lookupGA nodes ga).isSome then nodes
  else nodes ++ [(ga, { ga := ga, version := version, depth := depth,
                        is_direct := is_direct })]

/-- Second half of `_add_node`: record the parent edge — and
symmetrically the child edge — when a parent was supplied, is non-empty
(Python truthiness) and is not yet present. -/
def linkParent (nodes : List (String × DependencyNode)) (ga : String)
    (parent : Option String) : List (String × DependencyNode) :=
  match parent with
  | none => nodes
  | some p =>
    match lookupGA nodes ga with
    | none => nodes  -- unreachable in the program: `ga` was just inserted
    | some node =>
      if p ≠ "" ∧ p ∉ node.parents then
        let nodes2 := updateGA nodes ga
          (fun n => { n with parents := n.parents ++ [p] })
        if (lookupGA nodes2 p).isSome then
          updateGA nodes2 p
            (fun n => if ga ∈ n.children then n
                      else { n with children := n.children ++ [ga] })
        else nodes2
      else nodes

/-- `_add_node`: node creation followed by parent/child linking. -/
def add_node (s : ParseState) (ga version : String) (depth : Nat)
    (is_direct : Bool) (parent : Option String) : ParseState :=
  { s with nodes := linkParent (insertNewNode s.nodes ga version depth is_direct)
                      ga parent }

/-- One extracted line, `(depth, ga, version)`. -/
abbrev ParseEntry := Nat × String × String

/-- The body of the parse loop for a line that produced a key: a
depth-0 line re-records the root and the depth-0 chain entry (leaving
deeper chain entries in place); a deeper line takes its parent from the
chain at `depth - 1`, then becomes the chain entry for its own depth
and invalidates all deeper entries. -/
def processEntry (s : ParseState) (e : ParseEntry) : ParseState :=
  let depth := e.1
  let ga := e.2.1
  let version := e.2.2
  if depth = 0 then
    let s1 := add_node s ga version 0 true none
    { s1 with root_project := some ga,
              depth_parents := fun d => if d = 0 then some ga
                                        else s.depth_parents d }
  else
    let parent := s.depth_parents (depth - 1)
    let s1 := add_node s ga version depth (depth = 1) parent
    { s1 with depth_parents := fun d =>
        if d = depth then some ga
        else if depth < d then none
        else s.depth_parents d }

/-- One iteration of the parse loop over a raw line: skip blank lines
and lines without an extractable key. -/
def processLine (s : ParseState) (line : List Char) : ParseState :=
  if (pyStrip line).isEmpty then s
  else
    let depth := calculate_depth line
    match extract_ga_version line with
    | none => s
    | some gv => processEntry s (depth, gv.1, gv.2)

/-- The extracted entry of a raw line, when the line survives the
blank-line and malformed-line checks. -/
def entryOf (line : List Char) : Option ParseEntry :=
  if (pyStrip line).isEmpty then none
  else (extract_ga_version line).map (fun gv => (calculate_depth line, gv.1, gv.2))

/-- `tree_text.strip().split('\n')`. -/
def splitLinesPy (text : String) : List (List Char) :=
  splitOnChar '\n' (pyStrip text.toList)

/-- The per-node body of `_calculate_scores`:
`centrality = degree / max_degree` and
`impact = clamp(centrality * (1 - depth_penalty * 0.5) * direct_boost)`,
with `0.5 = 1/2` and `1.2 = 12/10` as exact rationals. -/
def scoreNode (maxDegree maxDepth : Nat) (n : DependencyNode) : DependencyNode :=
  let degree : ℚ := ((n.parents.length + n.children.length : Nat) : ℚ)
  let centrality := degree / (maxDegree : ℚ)
  let depth_penalty := (n.depth : ℚ) / ((maxDepth : ℚ) + 1)
  let impact := centrality * (1 - depth_penalty * (1 / 2)) *
                (if n.is_direct then 12 / 10 else 1)
  { n with centrality_score := centrality,
           impact_score := min 1 (max 0 impact) }

/-- `_calculate_scores`: no-op on an empty node set; otherwise apply
`scoreNode` with `max_degree` and `max_depth` both floored at 1. -/
def calculate_scores (nodes : List (String × DependencyNode)) :
    List (String × DependencyNode) :=
  if nodes.isEmpty then nodes
  else
    let maxDegree : Nat :=
      max ((nodes.map (fun kn => kn.2.parents.length + kn.2.children.length)).foldl
            max 0) 1
    let maxDepth : Nat := max ((nodes.map (fun kn => kn.2.depth)).foldl max 0) 1
    nodes.map (fun kn => (kn.1, scoreNode maxDegree maxDepth kn.2))

/-- `parse_tree_text`: split into lines, run the parse loop, compute
the scores. -/
def parse_tree_text (text : String) : DependencyGraph :=
  let finalState := (splitLinesPy text).foldl processLine {}
  { nodes := calculate_scores finalState.nodes,
    root_project := finalState.root_project }

/-- The extracted entries of a whole input text. -/
def entriesOf (text : String) : List ParseEntry :=
  (splitLinesPy text).filterMap entryOf

/-! ## Query surface (`dependency_graph.py`, lines 310-382) -/

/-- Round-half-to-even at integer precision (Python's `round`). -/
def roundHalfEven (q : ℚ) : ℤ :=
  let f := ⌊q⌋
  let frac := q - f
  if frac < 1 / 2 then f
  else if 1 / 2 < frac then f + 1
  else if f % 2 = 0 then f else f + 1

/-- Python `round(x, 3)` on the exact rational model. -/
def roundTo3 (q : ℚ) : ℚ :=
  (roundHalfEven (q * 1000) : ℚ) / 1000

/-- The dictionary produced by `DependencyNode.to_dict` (scores rounded
to three decimals). -/
structure NodeDict where
  ga : String
  version : String
  depth : Nat
  is_direct : Bool
  parents : List String
  children : List String
  centrality_score : ℚ
  impact_score : ℚ

/-- `to_dict`. -/
def to_dict (n : DependencyNode) : NodeDict :=
  { ga := n.ga, version := n.version, depth := n.depth,
    is_direct := n.is_direct, parents := n.parents, children := n.children,
    centrality_score := roundTo3 n.centrality_score,
    impact_score := roundTo3 n.impact_score }

/-- The record returned by `get_dependency_info`: `to_dict` plus the
textual `risk_assessment`. -/
structure DepInfo where
  ga : String
  version : String
  depth : Nat
  is_direct : Bool
  parents : List String
  children : List String
  centrality_score : ℚ
  impact_score : ℚ
  risk_assessment : String

/-- `get_dependency_info`: `none` for an unknown key, otherwise the
node dictionary plus a tier label derived from the (unrounded)
impact score. -/
def get_dependency_info (g : DependencyGraph) (ga : String) : Option DepInfo :=
  match lookupGA g.nodes ga with
  | none => none
  | some node =>
    let d := to_dict node
    let risk :=
      if node.impact_score > 7 / 10 then
        "HIGH - Critical dependency, changes may have wide impact"
      else if node.impact_score > 2 / 5 then
        "MEDIUM - Moderate impact, test thoroughly after changes"
      else
        "LOW - Isolated dependency, changes likely contained"
    some { ga := d.ga, version := d.version, depth := d.depth,
           is_direct := d.is_direct, parents := d.parents,
           children := d.children, centrality_score := d.centrality_score,
           impact_score := d.impact_score, risk_assessment := risk }

/-- One element of the `high_risk_dependencies` list (impact score is
the unrounded node attribute). -/
structure HighRisk where
  ga : String
  impact_score : ℚ
  version : String

/-- Insert into a list already sorted descending by impact score,
after every element with a strictly greater or equal score
(matching the stability of CPython's sort). -/
def insertDescImpact (x : HighRisk) : List HighRisk → List HighRisk
  | [] => [x]
  | y :: ys =>
    if y.impact_score < x.impact_score then x :: y :: ys
    else y :: insertDescImpact x ys

/-- `list.sort(key=impact, reverse=True)`: a stable descending sort.
Any stable sort computes the same list as CPython's Timsort. -/
def sortDescImpact : List HighRisk → List HighRisk
  | [] => []
  | x :: xs => insertDescImpact x (sortDescImpact xs)

/-- The aggregate summary dictionary of `get_llm_summary`. -/
structure LlmSummary where
  project : Option String
  total_dependencies : Nat
  direct_count : Nat
  transitive_count : Nat
  max_depth : Nat
  high_risk_dependencies : List HighRisk
  direct_dependencies : List (String × NodeDict)
  transitive_dependencies : List (String × NodeDict)
  all_dependencies : List (String × NodeDict)

/-- `get_llm_summary` either produces the summary or the explicit
`{"error": ...}` marker. -/
inductive SummaryResult where
  | failure (msg : String)
  | ok (s : LlmSummary)

/-- `get_llm_summary`: the error marker exactly when no node was
parsed; otherwise the aggregate summary. -/
def get_llm_summary (g : DependencyGraph) : SummaryResult :=
  if g.nodes.isEmpty then .failure "No dependencies parsed"
  else
    let direct_deps := (g.nodes.filter (fun kn => kn.2.is_direct)).map
      (fun kn => (kn.1, to_dict kn.2))
    let transitive_deps := (g.nodes.filter (fun kn => !kn.2.is_direct)).map
      (fun kn => (kn.1, to_dict kn.2))
    let high_risk := sortDescImpact
      ((g.nodes.filter (fun kn => kn.2.impact_score > 1 / 2)).map
        (fun kn => { ga := kn.1, impact_score := kn.2.impact_score,
                     version := kn.2.version }))
    .ok { project := g.root_project,
          total_dependencies := g.nodes.length,
          direct_count := direct_deps.length,
          transitive_count := transitive_deps.length,
          max_depth := (g.nodes.map (fun kn => kn.2.depth)).foldl max 0,
          high_risk_dependencies := high_risk.take 10,
          direct_dependencies := direct_deps,
          transitive_dependencies := transitive_deps,
          all_dependencies := g.nodes.map (fun kn => (kn.1, to_dict kn.2)) }

/-! ## Upgrade strategy engine (`upgrade_strategy.py`) -/

/-- The five strategy tags of the `UpgradeStrategy` enum. -/
inductive UpgradeStrategy where
  | DIRECT_UPGRADE
  | PARENT_UPGRADE
  | BOM_OVERRIDE
  | FORCE_OVERRIDE
  | CANNOT_UPGRADE
deriving DecidableEq

/-- The `.value` string of each enum member. -/
def UpgradeStrategy.value : UpgradeStrategy → String
  | .DIRECT_UPGRADE => "direct_upgrade"
  | .PARENT_UPGRADE => "parent_upgrade"
  | .BOM_OVERRIDE => "bom_override"
  | .FORCE_OVERRIDE => "force_override"
  | .CANNOT_UPGRADE => "cannot_upgrade"

/-- `UpgradeRecommendation` (dataclass). -/
structure UpgradeRecommendation where
  vulnerable_ga : String
  vulnerable_version : String
  target_version : String
  strategy : UpgradeStrategy
  upgrade_target_ga : String
  upgrade_target_version : String
  risk_level : String
  steps : List String := []
  warnings : List String := []
  testing_focus : List String := []
  parent_to_upgrade : Option String := none
  parent_current_version : Option String := none
  parent_target_version : Option String := none

/-- `SPRING_BOOT_BOM_PROPERTIES`: the curated component-key →
override-property table. -/
def SPRING_BOOT_BOM_PROPERTIES : List (String × String) :=
  [("org.apache.tomcat.embed:tomcat-embed-core", "tomcat.version"),
   ("org.apache.tomcat.embed:tomcat-embed-el", "tomcat.version"),
   ("org.apache.tomcat.embed:tomcat-embed-websocket", "tomcat.version"),
   ("com.fasterxml.jackson.core:jackson-databind", "jackson-bom.version"),
   ("com.fasterxml.jackson.core:jackson-core", "jackson-bom.version"),
   ("com.fasterxml.jackson.core:jackson-annotations", "jackson-bom.version"),
   ("org.apache.logging.log4j:log4j-core", "log4j2.version"),
   ("org.apache.logging.log4j:log4j-api", "log4j2.version"),
   ("io.netty:netty-handler", "netty.version"),
   ("io.netty:netty-buffer", "netty.version"),
   ("io.netty:netty-transport", "netty.version"),
   ("org.hibernate.orm:hibernate-core", "hibernate.version"),
   ("org.springframework:spring-core", "spring-framework.version"),
   ("org.springframework:spring-context", "spring-framework.version"),
   ("org.springframework:spring-web", "spring-framework.version"),
   ("ch.qos.logback:logback-classic", "logback.version"),
   ("ch.qos.logback:logback-core", "logback.version")]

/-- Dict lookup in the BOM table. -/
def lookupProp : List (String × String) → String → Option String
  | [], _ => none
  | (k, v) :: rest, key => if k = key then some v else lookupProp rest key

/-- Python `a, b = s.split(":")`: succeeds exactly when the split has
two parts, otherwise a `ValueError` is raised (`none`). -/
def splitTwo (s : String) : Option (String × String) :=
  match splitOnChar ':' s.toList with
  | [g, a] => some (String.mk g, String.mk a)
  | _ => none

/-- `_create_direct_upgrade`. -/
def create_direct_upgrade (ga from_version to_version : String) :
    Option UpgradeRecommendation :=
  let jump_type := version_jump_type from_version to_version
  let risk := if jump_type = "patch" then "LOW"
              else if jump_type = "minor" then "MEDIUM" else "HIGH"
  match splitTwo ga with
  | none => none
  | some _ =>
    some { vulnerable_ga := ga, vulnerable_version := from_version,
           target_version := to_version,
           strategy := .DIRECT_UPGRADE,
           upgrade_target_ga := ga, upgrade_target_version := to_version,
           risk_level := risk,
           steps := ["1. Open your pom.xml (or build.gradle)",
                     "2. Find the dependency: " ++ ga,
                     "3. Change version from " ++ from_version ++ " to " ++ to_version,
                     "4. Run: mvn clean install",
                     "5. Run your test suite"],
           warnings := ["This is a " ++ jump_type ++ " version jump",
                        if jump_type ≠ "patch" then
                          "Review the changelog for breaking changes" else ""],
           testing_focus := ["Unit tests for components using this dependency",
                             "Integration tests"] }

/-- `_create_parent_upgrade`. -/
def create_parent_upgrade (vulnerable_ga vulnerable_version target_version
    parent_ga parent_current parent_target : String) :
    Option UpgradeRecommendation :=
  match splitTwo parent_ga with
  | none => none
  | some ga2 =>
    some { vulnerable_ga := vulnerable_ga,
           vulnerable_version := vulnerable_version,
           target_version := target_version,
           strategy := .PARENT_UPGRADE,
           upgrade_target_ga := parent_ga,
           upgrade_target_version := parent_target,
           risk_level := "LOW",
           parent_to_upgrade := some parent_ga,
           parent_current_version := some parent_current,
           parent_target_version := some parent_target,
           steps := ["1. DO NOT add " ++ vulnerable_ga ++ " directly to your pom.xml",
                     "2. Instead, upgrade the PARENT: " ++ parent_ga,
                     "3. Change " ++ parent_ga ++ " from " ++ parent_current ++
                       " to " ++ parent_target,
                     "4. The fixed " ++ vulnerable_ga ++ " will come automatically",
                     "5. Run: mvn dependency:tree to verify",
                     "6. Run your test suite"],
           warnings := ["‚ö†Ô∏è " ++ vulnerable_ga ++ " is a TRANSITIVE dependency",
                        "‚ö†Ô∏è It's brought in by " ++ parent_ga,
                        "‚úÖ Upgrading the parent is the SAFEST approach"],
           testing_focus := ["All functionality using " ++ ga2.2,
                             "Integration tests",
                             "End-to-end tests"] }

/-- `_create_bom_override` (step 4 indexes `split(':')[1]`, an
`IndexError` when the key has no colon). -/
def create_bom_override (vulnerable_ga vulnerable_version target_version
    bom_property parent_ga : String) : Option UpgradeRecommendation :=
  match (splitOnChar ':' vulnerable_ga.toList).get? 1 with
  | none => none
  | some artifact =>
    some { vulnerable_ga := vulnerable_ga,
           vulnerable_version := vulnerable_version,
           target_version := target_version,
           strategy := .BOM_OVERRIDE,
           upgrade_target_ga := vulnerable_ga,
           upgrade_target_version := target_version,
           risk_level := if is_same_major_minor vulnerable_version target_version
                         then "LOW" else "MEDIUM",
           steps := ["1. Open your pom.xml",
                     "2. Add this property to <properties> section:",
                     "   <" ++ bom_property ++ ">" ++ target_version ++
                       "</" ++ bom_property ++ ">",
                     "3. This will override the version managed by Spring Boot BOM",
                     "4. Run: mvn dependency:tree | grep " ++ String.mk artifact,
                     "5. Verify it shows version " ++ target_version,
                     "6. Run your test suite"],
           warnings := ["‚ö†Ô∏è " ++ vulnerable_ga ++ " is managed by Spring Boot BOM",
                        "‚úÖ Using BOM property is the RECOMMENDED way to override",
                        "This ensures all related modules use the same version"],
           testing_focus := ["All web/API endpoints",
                             "Serialization/deserialization tests",
                             "Integration tests"] }

/-- `_create_force_override`. -/
def create_force_override (vulnerable_ga vulnerable_version target_version
    parent_ga risk : String) : Option UpgradeRecommendation :=
  match splitTwo vulnerable_ga with
  | none => none
  | some ga2 =>
    some { vulnerable_ga := vulnerable_ga,
           vulnerable_version := vulnerable_version,
           target_version := target_version,
           strategy := .FORCE_OVERRIDE,
           upgrade_target_ga := vulnerable_ga,
           upgrade_target_version := target_version,
           risk_level := risk,
           steps := ["1. ‚ö†Ô∏è WARNING: This is a forced override of a transitive dependency",
                     "2. Add explicit dependency to pom.xml:",
                     "   <dependency>",
                     "     <groupId>" ++ ga2.1 ++ "</groupId>",
                     "     <artifactId>" ++ ga2.2 ++ "</artifactId>",
                     "     <version>" ++ target_version ++ "</version>",
                     "   </dependency>",
                     "3. This will override the version from " ++ parent_ga,
                     "4. Run: mvn dependency:tree to verify",
                     "5. ‚ö†Ô∏è EXTENSIVE TESTING REQUIRED"],
           warnings := ["üö® This forces a version that " ++ parent_ga ++
                          " was NOT tested with",
                        "üö® " ++ parent_ga ++ " expects " ++ vulnerable_version ++
                          ", you're giving it " ++ target_version,
                        "üö® This might cause runtime errors if APIs changed",
                        "Consider upgrading " ++ parent_ga ++ " instead if possible"],
           testing_focus := ["‚ö†Ô∏è FULL REGRESSION TEST REQUIRED",
                             "All functionality using " ++ parent_ga,
                             "Runtime error detection (NoSuchMethodError, ClassNotFoundException)",
                             "Load testing",
                             "End-to-end tests"] }

/-- `_create_cannot_upgrade` (raises nothing; wrapped in `some` for
uniformity with its callers). -/
def create_cannot_upgrade (vulnerable_ga vulnerable_version target_version
    parent_ga : String) : Option UpgradeRecommendation :=
  some { vulnerable_ga := vulnerable_ga,
         vulnerable_version := vulnerable_version,
         target_version := target_version,
         strategy := .CANNOT_UPGRADE,
         upgrade_target_ga := vulnerable_ga,
         upgrade_target_version := target_version,
         risk_level := "CRITICAL",
         steps := ["1. üö® NO SAFE AUTOMATIC UPGRADE PATH",
                   "2. This requires MANUAL intervention:",
                   "   a. Check if " ++ parent_ga ++ " has a newer version",
                   "   b. Check if there's an alternative to " ++ parent_ga,
                   "   c. Consider accepting the vulnerability with mitigations",
                   "3. The version jump " ++ vulnerable_version ++ " ‚Üí " ++
                     target_version ++ " is MAJOR",
                   "4. Forcing this version WILL LIKELY BREAK your application"],
         warnings := ["üö® CRITICAL: Major version change detected",
                      "üö® " ++ vulnerable_version ++ " ‚Üí " ++ target_version ++
                        " crosses major/minor boundaries",
                      "üö® " ++ parent_ga ++ " almost certainly won't work with " ++
                        target_version,
                      "üö® Manual analysis required"],
         testing_focus := ["DO NOT PROCEED without manual analysis",
                           "Contact the library maintainers",
                           "Consider alternative libraries"] }

/-- `_analyze_transitive_upgrade`: the ordered cascade over the node's
first-recorded parent. An empty caller-supplied version list for the
parent falls through to the BOM check, as in the source. -/
def analyze_transitive_upgrade (g : DependencyGraph)
    (vulnerable_ga vulnerable_version target_version : String)
    (dep_info : DepInfo) (available_parent_versions : String → Option (List String)) :
    Option UpgradeRecommendation :=
  match dep_info.parents with
  | [] => create_direct_upgrade vulnerable_ga vulnerable_version target_version
  | immediate_parent :: _ =>
    let parent_info := get_dependency_info g immediate_parent
    let laterStrategies : Option UpgradeRecommendation :=
      match lookupProp SPRING_BOOT_BOM_PROPERTIES vulnerable_ga with
      | some bom_property =>
        create_bom_override vulnerable_ga vulnerable_version target_version
          bom_property immediate_parent
      | none =>
        if is_same_major_minor vulnerable_version target_version then
          create_force_override vulnerable_ga vulnerable_version target_version
            immediate_parent "MEDIUM"
        else if is_same_major vulnerable_version target_version then
          create_force_override vulnerable_ga vulnerable_version target_version
            immediate_parent "HIGH"
        else
          create_cannot_upgrade vulnerable_ga vulnerable_version target_version
            immediate_parent
    match available_parent_versions immediate_parent with
    | some (pv0 :: _) =>
      create_parent_upgrade vulnerable_ga vulnerable_version target_version
        immediate_parent
        (match parent_info with
         | some pi => pi.version
         | none => "unknown")
        pv0
    | _ => laterStrategies

/-- `get_upgrade_strategy`: not-found and direct keys fall to
`_create_direct_upgrade`; transitive keys go through the cascade.
An absent `available_parent_versions` argument is the constant-`none`
map (Python's `None`, replaced by `{}`). The `if not dep_info` check is
the `none` test: the info dictionary is never empty. -/
def get_upgrade_strategy (g : DependencyGraph)
    (vulnerable_ga vulnerable_version target_version : String)
    (available_parent_versions : String → Option (List String)) :
    Option UpgradeRecommendation :=
  match get_dependency_info g vulnerable_ga with
  | none => create_direct_upgrade vulnerable_ga vulnerable_version target_version
  | some dep_info =>
    if dep_info.is_direct then
      create_direct_upgrade vulnerable_ga vulnerable_version target_version
    else
      analyze_transitive_upgrade g vulnerable_ga vulnerable_version
        target_version dep_info available_parent_versions

/-! ## Derived quantities named by the specification -/

/-- `degree(n) = |parents(n)| + |children(n)|`. -/
def degreeOf (n : DependencyNode) : Nat :=
  n.parents.length + n.children.length

/-- The specification's `max_degree`: the maximum degree over all
nodes, floored at 1. -/
def maxDegreeOf (nodes : List (String × DependencyNode)) : Nat :=
  max ((nodes.map (fun kn => degreeOf kn.2)).foldl max 0) 1

/-- The specification's `max_depth`: the maximum stored depth over all
nodes (not floored). -/
def maxDepthRawOf (nodes : List (String × DependencyNode)) : Nat :=
  (nodes.map (fun kn => kn.2.depth)).foldl max 0

/-- The sample dependency tree of the repository's tests
(`debug_test.py`): tomcat-embed-core sits at depth 2 under
spring-boot-starter-tomcat. -/
def sample_tree : String :=
  "com.random-x:part-finder-service-api:1.2.39-SNAPSHOT\n├── org.springframework.boot:spring-boot-starter-tomcat:3.5.3\n│   └── org.apache.tomcat.embed:tomcat-embed-core:10.1.42\n├── com.fasterxml.jackson.core:jackson-databind:2.19.1\n└── org.apache.logging.log4j:log4j-core:2.24.3"

/-! ## Predicates used by the claim statements and proofs -/

/-- The parse-stable attributes of a node entry: key, version, depth,
directness. -/
def coreOf (kn : String × DependencyNode) : String × String × Nat × Bool :=
  (kn.1, kn.2.version, kn.2.depth, kn.2.is_direct)

/-- The risk tier of a direct upgrade, as the specification states it:
LOW for a patch jump, MEDIUM for minor, HIGH for major. -/
def directUpgradeRisk (vver tver : String) : String :=
  if version_jump_type vver tver = "patch" then "LOW"
  else if version_jump_type vver tver = "minor" then "MEDIUM" else "HIGH"

/-- Parse invariant for C10: the root is recorded with
`is_direct = true` at depth 0, directness coincides with `depth ≤ 1`
throughout, and exactly one node has depth 0. -/
def Inv10 (ga0 : String) (s : ParseState) : Prop :=
  s.root_project = some ga0 ∧
  (∃ r, lookupGA s.nodes ga0 = some r ∧ r.is_direct = true ∧ r.depth = 0) ∧
  (∀ kn ∈ s.nodes, kn.2.is_direct = decide (kn.2.depth ≤ 1)) ∧
  s.nodes.countP (fun kn => decide (kn.2.depth = 0)) = 1

/-- Entry depths never jump by more than one: each entry's depth is at
most one more than its predecessor's. -/
def depthOk : Nat → List ParseEntry → Bool
  | _, [] => true
  | D, e :: es => decide (e.1 ≤ D + 1) && depthOk e.1 es

/-- Parse invariant for C5: the root is recorded at depth 0 with no
parents, all other nodes have positive depth and at least one parent,
keys are unique, the ancestor chain is populated up to the previous
depth `D`, and chain entries are non-empty keys. -/
def Inv5 (ga0 : String) (D : Nat) (s : ParseState) : Prop :=
  s.root_project = some ga0 ∧
  (∃ r, lookupGA s.nodes ga0 = some r ∧ r.depth = 0 ∧ r.parents = []) ∧
  (∀ kn ∈ s.nodes, kn.1 ≠ ga0 → 1 ≤ kn.2.depth ∧ kn.2.parents ≠ []) ∧
  (s.nodes.map Prod.fst).Nodup ∧
  (∀ d, d ≤ D → (s.depth_parents d).isSome) ∧
  (∀ d p, s.depth_parents d = some p → p ≠ "")

/-! ## Helper lemmas: lookups and updates -/

theorem lookupGA_mem {nodes : List (String × DependencyNode)} {k : String}
    {n : DependencyNode} (h : lookupGA nodes k = some n) : (k, n) ∈ nodes := by
  induction nodes with
  | nil => simp [lookupGA] at h
  | cons kn rest ih =>
    obtain ⟨k', n'⟩ := kn
    by_cases hk : k' = k
    · subst hk
      simp [lookupGA] at h
      simp [h]
    · simp [lookupGA, hk] at h
      exact List.mem_cons_of_mem _ (ih h)

theorem lookupGA_append_left {xs : List (String × DependencyNode)}
    {k : String} {n : DependencyNode} (h : lookupGA xs k = some n)
    (ys : List (String × DependencyNode)) :
    lookupGA (xs ++ ys) k = some n := by
  induction xs with
  | nil => simp [lookupGA] at h
  | cons kn rest ih =>
    obtain ⟨k', n'⟩ := kn
    by_cases hk : k' = k
    · subst hk
      simp [lookupGA] at h ⊢
      exact h
    · simp [lookupGA, hk] at h ⊢
      exact ih h

theorem lookupGA_append_right {xs : List (String × DependencyNode)}
    {k : String} (h : lookupGA xs k = none) (ys : List (String × DependencyNode)) :
    lookupGA (xs ++ ys) k = lookupGA ys k := by
  induction xs with
  | nil => simp
  | cons kn rest ih =>
    obtain ⟨k', n'⟩ := kn
    by_cases hk : k' = k
    · subst hk
      simp [lookupGA] at h
    · simp [lookupGA, hk] at h ⊢
      exact ih h

theorem lookupGA_updateGA (nodes : List (String × DependencyNode))
    (ga k : String) (f : DependencyNode → DependencyNode) :
    lookupGA (updateGA nodes ga f) k =
      if k = ga then (lookupGA nodes k).map f else lookupGA nodes k := by
  induction nodes with
  | nil => by_cases h : k = ga <;> simp [updateGA, lookupGA, h]
  | cons kn rest ih =>
    obtain ⟨k', n'⟩ := kn
    by_cases h2 : k' = ga
    · subst h2
      have e : updateGA ((k', n') :: rest) k' f = (k', f n') :: updateGA rest k' f := by
        simp [updateGA]
      rw [e]
      by_cases h1 : k = k'
      · subst h1
        simp [lookupGA]
      · simp [lookupGA, h1, ih, (show ¬k' = k from fun hh => h1 hh.symm)]
    · have e : updateGA ((k', n') :: rest) ga f = (k', n') :: updateGA rest ga f := by
        simp [updateGA, h2]
      rw [e]
      by_cases h1 : k' = k
      · subst h1
        simp [lookupGA, (show ¬k' = ga from h2)]
      · simp [lookupGA, h1, ih]

theorem lookupGA_eq_none_iff {nodes : List (String × DependencyNode)}
    {k : String} : lookupGA nodes k = none ↔ k ∉ nodes.map Prod.fst := by
  induction nodes with
  | nil => simp [lookupGA]
  | cons kn rest ih =>
    obtain ⟨k', n'⟩ := kn
    by_cases hk : k' = k
    · subst hk
      simp [lookupGA]
    · have hk' : ¬k = k' := fun hh => hk hh.symm
      simp [lookupGA, hk, hk', ih]

theorem lookupGA_of_mem_nodup {nodes : List (String × DependencyNode)}
    (hnd : (nodes.map Prod.fst).Nodup) {k : String} {n : DependencyNode}
    (h : (k, n) ∈ nodes) : lookupGA nodes k = some n := by
  induction nodes with
  | nil => simp at h
  | cons kn rest ih =>
    obtain ⟨k', n'⟩ := kn
    simp only [List.map_cons, List.nodup_cons] at hnd
    rcases List.mem_cons.mp h with h1 | h1
    · cases h1
      simp [lookupGA]
    · have hk : ¬k' = k := by
        intro hh
        refine hnd.1 ?_
        rw [hh]
        exact List.mem_map_of_mem Prod.fst h1
      simp [lookupGA, hk]
      exact ih hnd.2 h1

theorem keys_updateGA (nodes : List (String × DependencyNode)) (ga : String)
    (f : DependencyNode → DependencyNode) :
    (updateGA nodes ga f).map Prod.fst = nodes.map Prod.fst := by
  induction nodes with
  | nil => simp [updateGA]
  | cons kn rest ih =>
    obtain ⟨k', n'⟩ := kn
    by_cases h : k' = ga <;> simp [updateGA, h, ih]

/-! ## Helper lemmas: `_add_node` -/

theorem insertNewNode_lookup_some {nodes : List (String × DependencyNode)}
    {k : String} {n : DependencyNode} (h : lookupGA nodes k = some n)
    (ga version : String) (depth : Nat) (is_direct : Bool) :
    lookupGA (insertNewNode nodes ga version depth is_direct) k = some n := by
  unfold insertNewNode
  split
  · exact h
  · exact lookupGA_append_left h _

theorem insertNewNode_lookup_new {nodes : List (String × DependencyNode)}
    {ga : String} (h : lookupGA nodes ga = none) (version : String)
    (depth : Nat) (is_direct : Bool) :
    lookupGA (insertNewNode nodes ga version depth is_direct) ga =
      some { ga := ga, version := version, depth := depth,
             is_direct := is_direct } := by
  unfold insertNewNode
  rw [h]
  simp only [Option.isSome_none, Bool.false_eq_true, if_false]
  rw [lookupGA_append_right h]
  simp [lookupGA]

theorem keys_insertNewNode (nodes : List (String × DependencyNode))
    (ga version : String) (depth : Nat) (is_direct : Bool) :
    (insertNewNode nodes ga version depth is_direct).map Prod.fst =
      if (lookupGA nodes ga).isSome then nodes.map Prod.fst
      else nodes.map Prod.fst ++ [ga] := by
  unfold insertNewNode
  split <;> simp_all

theorem keys_linkParent (nodes : List (String × DependencyNode)) (ga : String)
    (parent : Option String) :
    (linkParent nodes ga parent).map Prod.fst = nodes.map Prod.fst := by
  unfold linkParent
  cases parent with
  | none => rfl
  | some p =>
    cases hm : lookupGA nodes ga with
    | none => rfl
    | some node =>
      by_cases hcond : p ≠ "" ∧ p ∉ node.parents
      · simp only [if_pos hcond]
        split
        · rw [keys_updateGA, keys_updateGA]
        · rw [keys_updateGA]
      · simp only [if_neg hcond]

theorem linkParent_lookup {nodes : List (String × DependencyNode)}
    {k : String} {n : DependencyNode} (h : lookupGA nodes k = some n)
    (ga : String) (parent : Option String) :
    ∃ n', lookupGA (linkParent nodes ga parent) k = some n' ∧
      n'.ga = n.ga ∧ n'.version = n.version ∧ n'.depth = n.depth ∧
      n'.is_direct = n.is_direct ∧
      (n'.parents = n.parents ∨
        ∃ p, p ∉ n.parents ∧ n'.parents = n.parents ++ [p]) ∧
      (n'.children = n.children ∨
        ga ∉ n.children ∧ n'.children = n.children ++ [ga]) ∧
      (k ≠ ga → n'.parents = n.parents) := by
  unfold linkParent
  cases parent with
  | none => exact ⟨n, h, rfl, rfl, rfl, rfl, Or.inl rfl, Or.inl rfl, fun _ => rfl⟩
  | some p =>
    cases hm : lookupGA nodes ga with
    | none => exact ⟨n, h, rfl, rfl, rfl, rfl, Or.inl rfl, Or.inl rfl, fun _ => rfl⟩
    | some node =>
      dsimp only
      by_cases hcond : p ≠ "" ∧ p ∉ node.parents
      · simp only [if_pos hcond]
        have h2 : lookupGA (updateGA nodes ga
            (fun m => { m with parents := m.parents ++ [p] })) k =
            if k = ga then some { n with parents := n.parents ++ [p] }
            else some n := by
          rw [lookupGA_updateGA, h]
          split <;> rfl
        split
        · by_cases hkp : k = p <;> by_cases hkg : k = ga
          · -- k = p = ga: both the parent edge and the self child edge hit `k`
            subst hkp
            subst hkg
            have hn : node = n := by
              rw [h] at hm
              exact (Option.some.inj hm).symm
            have hp2 : k ∉ n.parents := hn ▸ hcond.2
            by_cases hch : k ∈ n.children
            · refine ⟨{ n with parents := n.parents ++ [k] }, ?_, rfl, rfl, rfl,
                rfl, Or.inr ⟨k, hp2, rfl⟩, Or.inl rfl, fun hc => absurd rfl hc⟩
              rw [lookupGA_updateGA, h2]
              simp [hch]
            · refine ⟨{ n with parents := n.parents ++ [k]
                               children := n.children ++ [k] }, ?_, rfl, rfl,
                rfl, rfl, Or.inr ⟨k, hp2, rfl⟩, Or.inr ⟨hch, rfl⟩,
                fun hc => absurd rfl hc⟩
              rw [lookupGA_updateGA, h2]
              simp [hch]
          · -- k = p ≠ ga: only the child edge hits `k`
            subst hkp
            by_cases hch : ga ∈ n.children
            · refine ⟨n, ?_, rfl, rfl, rfl, rfl, Or.inl rfl, Or.inl rfl,
                fun _ => rfl⟩
              rw [lookupGA_updateGA, h2]
              simp [hkg, hch]
            · refine ⟨{ n with children := n.children ++ [ga] }, ?_, rfl, rfl,
                rfl, rfl, Or.inl rfl, Or.inr ⟨hch, rfl⟩, fun _ => rfl⟩
              rw [lookupGA_updateGA, h2]
              simp [hkg, hch]
          · -- k = ga ≠ p: only the parent edge hits `k`
            subst hkg
            have hn : node = n := by
              rw [h] at hm
              exact (Option.some.inj hm).symm
            have hp2 : p ∉ n.parents := hn ▸ hcond.2
            refine ⟨{ n with parents := n.parents ++ [p] }, ?_, rfl, rfl, rfl,
              rfl, Or.inr ⟨p, hp2, rfl⟩, Or.inl rfl, fun hc => absurd rfl hc⟩
            rw [lookupGA_updateGA, h2]
            simp [fun hh : k = p => hkp hh]
          · -- k hits neither edge
            refine ⟨n, ?_, rfl, rfl, rfl, rfl, Or.inl rfl, Or.inl rfl,
              fun _ => rfl⟩
            rw [lookupGA_updateGA, h2]
            simp [hkp, hkg]
        · rw [h2]
          by_cases hkg : k = ga
          · subst hkg
            have hn : node = n := by
              rw [h] at hm
              exact (Option.some.inj hm).symm
            have hp2 : p ∉ n.parents := hn ▸ hcond.2
            simp only [if_pos rfl]
            exact ⟨_, rfl, rfl, rfl, rfl, rfl, Or.inr ⟨p, hp2, rfl⟩,
              Or.inl rfl, fun hc => absurd rfl hc⟩
          · simp only [if_neg hkg]
            exact ⟨n, rfl, rfl, rfl, rfl, rfl, Or.inl rfl, Or.inl rfl,
              fun _ => rfl⟩
      · rw [if_neg hcond]
        exact ⟨n, h, rfl, rfl, rfl, rfl, Or.inl rfl, Or.inl rfl, fun _ => rfl⟩

theorem nodup_append_singleton {α : Type} {l : List α} {x : α}
    (h : l.Nodup) (hx : x ∉ l) : (l ++ [x]).Nodup := by
  simp [List.nodup_append, h, hx]

theorem add_node_preserves {s : ParseState} {k : String} {n : DependencyNode}
    (h : lookupGA s.nodes k = some n) (ga version : String) (depth : Nat)
    (is_direct : Bool) (parent : Option String) :
    ∃ n', lookupGA (add_node s ga version depth is_direct parent).nodes k = some n' ∧
      n'.ga = n.ga ∧ n'.version = n.version ∧ n'.depth = n.depth ∧
      n'.is_direct = n.is_direct ∧
      (n'.parents = n.parents ∨
        ∃ p, p ∉ n.parents ∧ n'.parents = n.parents ++ [p]) ∧
      (n'.children = n.children ∨
        ga ∉ n.children ∧ n'.children = n.children ++ [ga]) ∧
      (k ≠ ga → n'.parents = n.parents) := by
  have h0 := insertNewNode_lookup_some h ga version depth is_direct
  exact linkParent_lookup h0 ga parent

theorem keys_add_node (s : ParseState) (ga version : String) (depth : Nat)
    (is_direct : Bool) (parent : Option String) :
    (add_node s ga version depth is_direct parent).nodes.map Prod.fst =
      if (lookupGA s.nodes ga).isSome then s.nodes.map Prod.fst
      else s.nodes.map Prod.fst ++ [ga] := by
  show (linkParent (insertNewNode s.nodes ga version depth is_direct)
      ga parent).map Prod.fst = _
  rw [keys_linkParent, keys_insertNewNode]

theorem nodupKeys_add_node {s : ParseState}
    (hnd : (s.nodes.map Prod.fst).Nodup) (ga version : String) (depth : Nat)
    (is_direct : Bool) (parent : Option String) :
    ((add_node s ga version depth is_direct parent).nodes.map Prod.fst).Nodup := by
  rw [keys_add_node]
  split
  · exact hnd
  · refine nodup_append_singleton hnd ?_
    rw [← lookupGA_eq_none_iff]
    rename_i hns
    exact Option.not_isSome_iff_eq_none.mp hns

theorem add_node_lookup_none {s : ParseState} {k ga : String} (hk : k ≠ ga)
    (h : lookupGA s.nodes k = none) (version : String) (depth : Nat)
    (is_direct : Bool) (parent : Option String) :
    lookupGA (add_node s ga version depth is_direct parent).nodes k = none := by
  rw [lookupGA_eq_none_iff, keys_add_node]
  rw [lookupGA_eq_none_iff] at h
  split
  · exact h
  · simp [h, hk]

theorem add_node_lookup_new {s : ParseState} {ga : String}
    (h : lookupGA s.nodes ga = none) (version : String) (depth : Nat)
    (is_direct : Bool) (parent : Option String) :
    ∃ n', lookupGA (add_node s ga version depth is_direct parent).nodes ga = some n' ∧
      n'.ga = ga ∧ n'.version = version ∧ n'.depth = depth ∧
      n'.is_direct = is_direct ∧
      n'.parents = (match parent with
        | some p => if p = "" then [] else [p]
        | none => []) ∧
      (n'.children = [] ∨ n'.children = [ga]) := by
  have h0 := insertNewNode_lookup_new h version depth is_direct
  show ∃ n', lookupGA (linkParent (insertNewNode s.nodes ga version depth is_direct)
      ga parent) ga = some n' ∧ _
  unfold linkParent
  cases parent with
  | none => exact ⟨_, h0, rfl, rfl, rfl, rfl, rfl, Or.inl rfl⟩
  | some p =>
    rw [h0]
    dsimp only
    by_cases hp : p = ""
    · rw [if_neg (by simp [hp])]
      exact ⟨_, h0, rfl, rfl, rfl, rfl, by simp [hp], Or.inl rfl⟩
    · rw [if_pos (by simp [hp])]
      have h2 : lookupGA (updateGA (insertNewNode s.nodes ga version depth is_direct)
          ga (fun m => { m with parents := m.parents ++ [p] })) ga =
          some { ga := ga, version := version, depth := depth,
                 is_direct := is_direct, parents := [p] } := by
        rw [lookupGA_updateGA, h0]
        simp
      split
      · by_cases hpg : ga = p
        · subst hpg
          refine ⟨{ ga := ga, version := version, depth := depth,
                    is_direct := is_direct, parents := [ga]
                    children := [ga] }, ?_, rfl, rfl, rfl, rfl,
            by simp [hp], Or.inr rfl⟩
          rw [lookupGA_updateGA, h2]
          simp
        · refine ⟨{ ga := ga, version := version, depth := depth,
                    is_direct := is_direct, parents := [p] }, ?_, rfl, rfl,
            rfl, rfl, by simp [hp], Or.inl rfl⟩
          rw [lookupGA_updateGA, if_neg hpg]
          exact h2
      · exact ⟨_, h2, rfl, rfl, rfl, rfl, by simp [hp], Or.inl rfl⟩

/-! ## Helper lemmas: attribute cores, scores, the parse loop -/


theorem cores_updateGA (nodes : List (String × DependencyNode)) (ga : String)
    (f : DependencyNode → DependencyNode)
    (hf : ∀ n, (f n).version = n.version ∧ (f n).depth = n.depth ∧
      (f n).is_direct = n.is_direct) :
    (updateGA nodes ga f).map coreOf = nodes.map coreOf := by
  induction nodes with
  | nil => rfl
  | cons kn rest ih =>
    obtain ⟨k', n'⟩ := kn
    by_cases h : k' = ga <;>
      simp [updateGA, h, ih, coreOf, (hf n').1, (hf n').2.1, (hf n').2.2]

theorem cores_linkParent (nodes : List (String × DependencyNode)) (ga : String)
    (parent : Option String) :
    (linkParent nodes ga parent).map coreOf = nodes.map coreOf := by
  unfold linkParent
  cases parent with
  | none => rfl
  | some p =>
    cases hm : lookupGA nodes ga with
    | none => rfl
    | some node =>
      dsimp only
      by_cases hcond : p ≠ "" ∧ p ∉ node.parents
      · rw [if_pos hcond]
        split
        · rw [cores_updateGA _ _ _ (fun n => by
            by_cases hc : ga ∈ n.children <;> simp [hc]),
            cores_updateGA _ _ _ (fun n => by simp)]
        · rw [cores_updateGA _ _ _ (fun n => by simp)]
      · rw [if_neg hcond]

theorem cores_add_node (s : ParseState) (ga version : String) (depth : Nat)
    (is_direct : Bool) (parent : Option String) :
    (add_node s ga version depth is_direct parent).nodes.map coreOf =
      if (lookupGA s.nodes ga).isSome then s.nodes.map coreOf
      else s.nodes.map coreOf ++ [(ga, version, depth, is_direct)] := by
  show (linkParent (insertNewNode s.nodes ga version depth is_direct)
      ga parent).map coreOf = _
  rw [cores_linkParent]
  unfold insertNewNode
  split <;> simp [coreOf]

theorem foldl_max_le_self (l : List Nat) (a : Nat) : a ≤ l.foldl max a := by
  induction l generalizing a with
  | nil => simp
  | cons x xs ih => exact le_trans (le_max_left a x) (ih (max a x))

theorem le_foldl_max {l : List Nat} {x : Nat} (h : x ∈ l) (a : Nat) :
    x ≤ l.foldl max a := by
  induction l generalizing a with
  | nil => simp at h
  | cons y ys ih =>
    rcases List.mem_cons.mp h with h1 | h1
    · subst h1
      exact le_trans (le_max_right a x) (foldl_max_le_self ys (max a x))
    · exact ih h1 (max a y)

theorem scoreNode_attrs (M1 M2 : Nat) (n : DependencyNode) :
    (scoreNode M1 M2 n).ga = n.ga ∧ (scoreNode M1 M2 n).version = n.version ∧
    (scoreNode M1 M2 n).depth = n.depth ∧
    (scoreNode M1 M2 n).is_direct = n.is_direct ∧
    (scoreNode M1 M2 n).parents = n.parents ∧
    (scoreNode M1 M2 n).children = n.children :=
  ⟨rfl, rfl, rfl, rfl, rfl, rfl⟩

theorem lookupGA_map_score (nodes : List (String × DependencyNode))
    (M1 M2 : Nat) (k : String) :
    lookupGA (nodes.map (fun kn => (kn.1, scoreNode M1 M2 kn.2))) k =
      (lookupGA nodes k).map (scoreNode M1 M2) := by
  induction nodes with
  | nil => rfl
  | cons kn rest ih =>
    obtain ⟨k', n'⟩ := kn
    by_cases h : k' = k <;> simp [lookupGA, h, ih]

theorem calculate_scores_lookup (nodes : List (String × DependencyNode))
    (k : String) :
    ∃ M1 M2, lookupGA (calculate_scores nodes) k =
      (lookupGA nodes k).map (scoreNode M1 M2) := by
  unfold calculate_scores
  split
  · refine ⟨1, 1, ?_⟩
    rename_i hempty
    rw [List.isEmpty_iff] at hempty
    subst hempty
    rfl
  · exact ⟨_, _, lookupGA_map_score nodes _ _ k⟩

theorem processLine_eq_entryOf (s : ParseState) (line : List Char) :
    processLine s line = match entryOf line with
      | none => s
      | some e => processEntry s e := by
  unfold processLine entryOf
  by_cases hb : (pyStrip line).isEmpty
  · simp [hb]
  · simp only [hb, if_false, Bool.false_eq_true]
    cases extract_ga_version line <;> rfl

theorem foldl_processLine_eq (lines : List (List Char)) (s : ParseState) :
    lines.foldl processLine s = (lines.filterMap entryOf).foldl processEntry s := by
  induction lines generalizing s with
  | nil => rfl
  | cons l rest ih =>
    rw [List.foldl_cons, processLine_eq_entryOf]
    cases he : entryOf l with
    | none => simp [List.filterMap_cons, he, ih]
    | some e => simp [List.filterMap_cons, he, ih]

theorem parse_tree_text_eq (text : String) :
    parse_tree_text text =
      { nodes := calculate_scores ((entriesOf text).foldl processEntry {}).nodes,
        root_project := ((entriesOf text).foldl processEntry {}).root_project } := by
  unfold parse_tree_text entriesOf
  rw [foldl_processLine_eq]

theorem processEntry_zero (s : ParseState) (ga version : String) :
    processEntry s (0, ga, version) =
      { nodes := (add_node s ga version 0 true none).nodes,
        root_project := some ga,
        depth_parents := fun d => if d = 0 then some ga
                                  else s.depth_parents d } := rfl

theorem processEntry_pos (s : ParseState) {d : Nat} (hd : d ≠ 0)
    (ga version : String) :
    processEntry s (d, ga, version) =
      { nodes := (add_node s ga version d (decide (d = 1))
          (s.depth_parents (d - 1))).nodes,
        root_project := s.root_project,
        depth_parents := fun d' => if d' = d then some ga
          else if d < d' then none else s.depth_parents d' } := by
  unfold processEntry
  rw [if_neg hd]
  rfl

/-! ## C7: version jump classification -/

/-- C7: `version_jump_type` returns `"major"` when the parsed major
components differ, else `"minor"` when the minors differ, else
`"patch"`; and the three concrete examples of the specification. -/
theorem spec_C7 :
    (∀ from_v to_v, (parse_version from_v).1 ≠ (parse_version to_v).1 →
      version_jump_type from_v to_v = "major") ∧
    (∀ from_v to_v, (parse_version from_v).1 = (parse_version to_v).1 →
      (parse_version from_v).2.1 ≠ (parse_version to_v).2.1 →
      version_jump_type from_v to_v = "minor") ∧
    (∀ from_v to_v, (parse_version from_v).1 = (parse_version to_v).1 →
      (parse_version from_v).2.1 = (parse_version to_v).2.1 →
      version_jump_type from_v to_v = "patch") ∧
    version_jump_type "10.1.42" "10.1.45" = "patch" ∧
    version_jump_type "10.1.42" "10.2.0" = "minor" ∧
    version_jump_type "2.9.0" "3.0.0" = "major" := by
  refine ⟨?_, ?_, ?_, by decide, by decide, by decide⟩
  · intro f t h
    simp [version_jump_type, h]
  · intro f t h1 h2
    simp [version_jump_type, h1, h2]
  · intro f t h1 h2
    simp [version_jump_type, h1, h2]

/-- Witness for C7 at a concrete input. -/
theorem spec_C7_witness : version_jump_type "1.4.7" "2.0.0" = "major" :=
  spec_C7.1 "1.4.7" "2.0.0" (by decide)

/-! ## C9: lookup misses and the empty-graph summary -/

/-- C9: `get_dependency_info` on an unknown key is an absent result,
and `get_llm_summary` yields the error marker exactly when the graph
has zero nodes. -/
theorem spec_C9 :
    (∀ (g : DependencyGraph) (ga : String), lookupGA g.nodes ga = none →
      get_dependency_info g ga = none) ∧
    (∀ g : DependencyGraph,
      get_llm_summary g = SummaryResult.failure "No dependencies parsed" ↔
        g.nodes = []) := by
  constructor
  · intro g ga h
    simp [get_dependency_info, h]
  · intro g
    unfold get_llm_summary
    by_cases h : g.nodes.isEmpty
    · simp [h, List.isEmpty_iff.mp h]
    · rw [if_neg h]
      constructor
      · intro hh
        exact SummaryResult.noConfusion hh
      · intro hh
        exact absurd (List.isEmpty_iff.mpr hh) h

/-- Witness for C9 at a concrete input. -/
theorem spec_C9_witness :
    get_dependency_info { nodes := [], root_project := none } "a:b" = none :=
  spec_C9.1 _ "a:b" rfl

/-! ## C8: parsing never fails, malformed lines are skipped -/

/-- C8: a line is extracted to no key exactly when its cleaned content
splits on `':'` into fewer than three parts; such a line leaves the
parser state untouched; and the whole parse equals the fold over only
the surviving extracted entries (so malformed lines can never abort
the parse, which is a total function). -/
theorem spec_C8 :
    (∀ line : List Char, extract_ga_version line = none ↔
      (splitOnChar ':' (pyStrip (subParens
        (line.dropWhile isTreePrefixChar)))).length < 3) ∧
    (∀ (s : ParseState) (line : List Char), extract_ga_version line = none →
      processLine s line = s) ∧
    (∀ (s : ParseState) (lines : List (List Char)),
      lines.foldl processLine s =
        (lines.filterMap entryOf).foldl processEntry s) := by
  refine ⟨?_, ?_, fun s lines => foldl_processLine_eq lines s⟩
  · intro line
    unfold extract_ga_version
    by_cases hb : (pyStrip (subParens (line.dropWhile isTreePrefixChar))).isEmpty
    · rw [if_pos hb]
      rw [List.isEmpty_iff] at hb
      rw [hb]
      simp [splitOnChar]
    · rw [if_neg hb]
      rcases hsp : splitOnChar ':'
          (pyStrip (subParens (line.dropWhile isTreePrefixChar))) with
        _ | ⟨g, _ | ⟨a, _ | ⟨r, rs⟩⟩⟩ <;>
        simp [hsp]
  · intro s line h
    rw [processLine_eq_entryOf]
    unfold entryOf
    by_cases hb : (pyStrip line).isEmpty
    · simp [hb]
    · simp [hb, h]

/-- Witness for C8 at a concrete input: a colon-free line is skipped. -/
theorem spec_C8_witness :
    processLine { nodes := [], root_project := none,
                  depth_parents := fun _ => none }
        "this line has no colons".toList =
      { nodes := [], root_project := none, depth_parents := fun _ => none } :=
  spec_C8.2.1 _ _ (by decide)

/-! ## C4: later depth-0 lines (corrected) -/

/-- Counterexample to C4 as stated: a second depth-0 line *does*
replace the recorded root project and the depth-0 chain entry (the
next depth-1 line attaches to the later root). -/
theorem spec_C4_counterexample :
    (parse_tree_text "a:b:1.0\nc:d:2.0\n├── e:f:3.0").root_project ≠
      some "a:b" ∧
    (parse_tree_text "a:b:1.0\nc:d:2.0\n├── e:f:3.0").root_project =
      some "c:d" ∧
    (lookupGA (parse_tree_text "a:b:1.0\nc:d:2.0\n├── e:f:3.0").nodes
        "e:f").map (fun n => n.parents) = some ["c:d"] := by
  refine ⟨by decide, by decide, by decide⟩

/-- C4 (amended): *every* depth-0 line is honored as a root
declaration — it replaces the recorded root project and the depth-0
chain entry, leaves deeper chain entries in place, and (first sighting
wins) never alters the attributes of an already-recorded node. -/
theorem spec_C4 (s : ParseState) (ga version : String) :
    (processEntry s (0, ga, version)).root_project = some ga ∧
    (processEntry s (0, ga, version)).depth_parents 0 = some ga ∧
    (∀ d, d ≠ 0 → (processEntry s (0, ga, version)).depth_parents d =
      s.depth_parents d) ∧
    (∀ n, lookupGA s.nodes ga = some n →
      (processEntry s (0, ga, version)).nodes = s.nodes) ∧
    (lookupGA s.nodes ga = none →
      (processEntry s (0, ga, version)).nodes =
        s.nodes ++ [(ga, { ga := ga, version := version, depth := 0,
                           is_direct := true })]) := by
  rw [processEntry_zero]
  refine ⟨rfl, by simp, fun d hd => by simp [hd], ?_, ?_⟩
  · intro n h
    show (add_node s ga version 0 true none).nodes = s.nodes
    show linkParent (insertNewNode s.nodes ga version 0 true) ga none = s.nodes
    unfold linkParent insertNewNode
    simp [h]
  · intro h
    show (add_node s ga version 0 true none).nodes = _
    show linkParent (insertNewNode s.nodes ga version 0 true) ga none = _
    unfold linkParent insertNewNode
    simp [h]

/-- Witness for C4 at a concrete input: re-declaring an existing key at
depth 0 replaces the root but leaves the node list unchanged. -/
theorem spec_C4_witness :
    (processEntry
        { nodes := [("a:b", { ga := "a:b", version := "0.9", depth := 1,
                              is_direct := true })],
          root_project := none, depth_parents := fun _ => none }
        (0, "a:b", "1.0")).nodes =
      [("a:b", { ga := "a:b", version := "0.9", depth := 1,
                 is_direct := true })] :=
  (spec_C4 _ "a:b" "1.0").2.2.2.1 _ rfl

/-! ## C3: first sighting wins (corrected) -/

/-- Counterexample to C3 as stated: the node created by a depth-0 root
line is stored with `is_direct = true` although its depth is 0, not 1 —
so `is_direct = (depth == 1)` does not hold at every creation. -/
theorem spec_C3_counterexample :
    (lookupGA (parse_tree_text "a:b:1.0").nodes "a:b").map
      (fun n => (n.is_direct, decide (n.depth = 1))) = some (true, false) := by
  decide

/-- C3 (amended): once a node exists, a parse step never changes its
version, depth or directness, and only ever appends a missing parent
(resp. child) key to its parent (resp. child) list, keeping both lists
duplicate-free; a node created by a parse step carries the sighting's
version and depth, with `is_direct = (depth == 1)` for positive-depth
sightings and `is_direct = true` for a depth-0 (root) sighting. -/
theorem spec_C3 :
    (∀ (s : ParseState) (line : List Char) (k : String) (n : DependencyNode),
      lookupGA s.nodes k = some n →
      ∃ n', lookupGA (processLine s line).nodes k = some n' ∧
        n'.version = n.version ∧ n'.depth = n.depth ∧
        n'.is_direct = n.is_direct ∧
        (n'.parents = n.parents ∨
          ∃ p, p ∉ n.parents ∧ n'.parents = n.parents ++ [p]) ∧
        (n'.children = n.children ∨
          ∃ c, c ∉ n.children ∧ n'.children = n.children ++ [c]) ∧
        (n.parents.Nodup → n'.parents.Nodup) ∧
        (n.children.Nodup → n'.children.Nodup)) ∧
    (∀ (s : ParseState) (line : List Char) (d : Nat) (k version : String),
      entryOf line = some (d, k, version) →
      lookupGA s.nodes k = none →
      ∃ n', lookupGA (processLine s line).nodes k = some n' ∧
        n'.version = version ∧ n'.depth = d ∧
        n'.is_direct = (if d = 0 then true else decide (d = 1))) := by
  constructor
  · intro s line k n h
    rw [processLine_eq_entryOf]
    cases he : entryOf line with
    | none => exact ⟨n, h, rfl, rfl, rfl, Or.inl rfl, Or.inl rfl,
        fun hh => hh, fun hh => hh⟩
    | some e =>
      obtain ⟨d, ga, version⟩ := e
      have key : ∃ n', lookupGA (processEntry s (d, ga, version)).nodes k =
          some n' ∧ n'.version = n.version ∧ n'.depth = n.depth ∧
          n'.is_direct = n.is_direct ∧
          (n'.parents = n.parents ∨
            ∃ p, p ∉ n.parents ∧ n'.parents = n.parents ++ [p]) ∧
          (n'.children = n.children ∨
            ∃ c, c ∉ n.children ∧ n'.children = n.children ++ [c]) := by
        by_cases hd : d = 0
        · subst hd
          rw [processEntry_zero]
          obtain ⟨n', h1, _, h3, h4, h5, h6, h7, _⟩ :=
            add_node_preserves h ga version 0 true none
          exact ⟨n', h1, h3, h4, h5, h6,
            h7.imp id (fun hh => ⟨ga, hh.1, hh.2⟩)⟩
        · rw [processEntry_pos s hd]
          obtain ⟨n', h1, _, h3, h4, h5, h6, h7, _⟩ :=
            add_node_preserves h ga version d (decide (d = 1))
              (s.depth_parents (d - 1))
          exact ⟨n', h1, h3, h4, h5, h6,
            h7.imp id (fun hh => ⟨ga, hh.1, hh.2⟩)⟩
      obtain ⟨n', h1, h2, h3, h4, h5, h6⟩ := key
      refine ⟨n', h1, h2, h3, h4, h5, h6, ?_, ?_⟩
      · intro hnd
        rcases h5 with h5 | ⟨p, hp, h5⟩
        · rw [h5]; exact hnd
        · rw [h5]; exact nodup_append_singleton hnd hp
      · intro hnd
        rcases h6 with h6 | ⟨c, hc, h6⟩
        · rw [h6]; exact hnd
        · rw [h6]; exact nodup_append_singleton hnd hc
  · intro s line d k version he h
    rw [processLine_eq_entryOf, he]
    dsimp only
    by_cases hd : d = 0
    · subst hd
      rw [processEntry_zero]
      obtain ⟨n', h1, _, h3, h4, h5, _, _⟩ := add_node_lookup_new h version 0 true none
      exact ⟨n', h1, h3, h4, by simp [h5]⟩
    · rw [processEntry_pos s hd]
      obtain ⟨n', h1, _, h3, h4, h5, _, _⟩ := add_node_lookup_new h version d
        (decide (d = 1)) (s.depth_parents (d - 1))
      exact ⟨n', h1, h3, h4, by simp [h5, hd]⟩

/-- Witness for C3 at a concrete input. -/
theorem spec_C3_witness :
    ∃ n', lookupGA (processLine
        { nodes := [("a:b", { ga := "a:b", version := "1.0", depth := 1,
                              is_direct := true })],
          root_project := some "a:b", depth_parents := fun _ => none }
        "├── c:d:2.0".toList).nodes "a:b" = some n' ∧
      n'.version = ("1.0" : String) ∧ n'.depth = 1 ∧ n'.is_direct = true ∧
      (n'.parents = ([] : List String) ∨
        ∃ p, p ∉ ([] : List String) ∧ n'.parents = [] ++ [p]) ∧
      (n'.children = ([] : List String) ∨
        ∃ c, c ∉ ([] : List String) ∧ n'.children = [] ++ [c]) ∧
      (([] : List String).Nodup → n'.parents.Nodup) ∧
      (([] : List String).Nodup → n'.children.Nodup) :=
  spec_C3.1
    { nodes := [("a:b", { ga := "a:b", version := "1.0", depth := 1,
                          is_direct := true })],
      root_project := some "a:b", depth_parents := fun _ => none }
    "├── c:d:2.0".toList "a:b"
    { ga := "a:b", version := "1.0", depth := 1, is_direct := true }
    rfl

/-! ## C2: the three DIRECT_UPGRADE fallbacks -/


theorem create_direct_upgrade_spec {k : String}
    (hk : (splitOnChar ':' k.toList).length = 2) (vver tver : String) :
    ∃ r, create_direct_upgrade k vver tver = some r ∧
      r.strategy = UpgradeStrategy.DIRECT_UPGRADE ∧
      r.upgrade_target_ga = k ∧ r.upgrade_target_version = tver ∧
      r.risk_level = directUpgradeRisk vver tver := by
  obtain ⟨x, y, hxy⟩ := List.length_eq_two.mp hk
  unfold create_direct_upgrade splitTwo
  rw [hxy]
  exact ⟨_, rfl, rfl, rfl, rfl, rfl⟩

theorem get_dependency_info_eq {g : DependencyGraph} {k : String}
    {n : DependencyNode} (h : lookupGA g.nodes k = some n) :
    ∃ di, get_dependency_info g k = some di ∧ di.is_direct = n.is_direct ∧
      di.parents = n.parents ∧ di.version = n.version := by
  unfold get_dependency_info
  rw [h]
  exact ⟨_, rfl, rfl, rfl, rfl⟩

/-- C2: when the vulnerable key (a well-formed `group:artifact` key) is
not in the graph, or is direct, or is transitive with no recorded
parent, `get_upgrade_strategy` returns a DIRECT_UPGRADE recommendation
whose risk is LOW / MEDIUM / HIGH for a patch / minor / major jump. -/
theorem spec_C2 (g : DependencyGraph) (k vver tver : String)
    (apv : String → Option (List String))
    (hk : (splitOnChar ':' k.toList).length = 2) :
    (lookupGA g.nodes k = none →
      ∃ r, get_upgrade_strategy g k vver tver apv = some r ∧
        r.strategy = UpgradeStrategy.DIRECT_UPGRADE ∧
        r.upgrade_target_ga = k ∧ r.upgrade_target_version = tver ∧
        r.risk_level = directUpgradeRisk vver tver) ∧
    (∀ n, lookupGA g.nodes k = some n → n.is_direct = true →
      ∃ r, get_upgrade_strategy g k vver tver apv = some r ∧
        r.strategy = UpgradeStrategy.DIRECT_UPGRADE ∧
        r.upgrade_target_ga = k ∧ r.upgrade_target_version = tver ∧
        r.risk_level = directUpgradeRisk vver tver) ∧
    (∀ n, lookupGA g.nodes k = some n → n.is_direct = false →
      n.parents = [] →
      ∃ r, get_upgrade_strategy g k vver tver apv = some r ∧
        r.strategy = UpgradeStrategy.DIRECT_UPGRADE ∧
        r.upgrade_target_ga = k ∧ r.upgrade_target_version = tver ∧
        r.risk_level = directUpgradeRisk vver tver) := by
  refine ⟨?_, ?_, ?_⟩
  · intro h
    have hdi : get_dependency_info g k = none := by
      unfold get_dependency_info
      rw [h]
    unfold get_upgrade_strategy
    rw [hdi]
    exact create_direct_upgrade_spec hk vver tver
  · intro n h hdir
    obtain ⟨di, hdi, hdd, _, _⟩ := get_dependency_info_eq h
    unfold get_upgrade_strategy
    rw [hdi]
    dsimp only
    rw [hdd, hdir]
    simp only [if_true]
    exact create_direct_upgrade_spec hk vver tver
  · intro n h hdir hpar
    obtain ⟨di, hdi, hdd, hdp, _⟩ := get_dependency_info_eq h
    unfold get_upgrade_strategy
    rw [hdi]
    dsimp only
    rw [hdd, hdir]
    simp only [Bool.false_eq_true, if_false]
    unfold analyze_transitive_upgrade
    rw [hdp, hpar]
    exact create_direct_upgrade_spec hk vver tver

/-- Witness for C2 at a concrete input: an unknown key falls back to a
direct upgrade with the patch-jump risk tier. -/
theorem spec_C2_witness :
    ∃ r, get_upgrade_strategy { nodes := [], root_project := none }
        "a:b" "1.0.0" "1.0.3" (fun _ => none) = some r ∧
      r.strategy = UpgradeStrategy.DIRECT_UPGRADE ∧
      r.upgrade_target_ga = "a:b" ∧ r.upgrade_target_version = "1.0.3" ∧
      r.risk_level = directUpgradeRisk "1.0.0" "1.0.3" :=
  (spec_C2 _ "a:b" "1.0.0" "1.0.3" (fun _ => none) (by decide)).1 rfl

/-! ## C1: the transitive decision cascade -/

theorem lookupProp_mem {table : List (String × String)} {k v : String}
    (h : lookupProp table k = some v) : k ∈ table.map Prod.fst := by
  induction table with
  | nil => exact Option.noConfusion h
  | cons kv rest ih =>
    obtain ⟨k', v'⟩ := kv
    by_cases hk : k' = k
    · subst hk
      simp
    · simp only [lookupProp, if_neg hk] at h
      simp [ih h]

theorem bom_key_parts {vga bp : String}
    (h : lookupProp SPRING_BOOT_BOM_PROPERTIES vga = some bp) :
    ∃ a, (splitOnChar ':' vga.toList).get? 1 = some a := by
  have hmem := lookupProp_mem h
  have hall : ∀ k ∈ SPRING_BOOT_BOM_PROPERTIES.map Prod.fst,
      ((splitOnChar ':' k.toList).get? 1).isSome = true := by decide
  exact Option.isSome_iff_exists.mp (hall vga hmem)

/-- C1: for a vulnerability whose key is in the graph, not direct, and
with a recorded parent, the engine follows the ordered cascade on the
first-recorded parent: (a) supplied parent alternatives give
PARENT_UPGRADE/LOW redirected to the parent's first alternative;
(b) else a curated BOM key gives BOM_OVERRIDE with LOW risk exactly for
a same-major.minor jump; (c) else same major.minor gives
FORCE_OVERRIDE/MEDIUM; (d) else same major gives FORCE_OVERRIDE/HIGH;
(e) else CANNOT_UPGRADE/CRITICAL. In particular tomcat-embed-core at
depth 2 under spring-boot-starter-tomcat with 10.1.42 → 10.1.45 and no
supplied alternatives yields BOM_OVERRIDE (with LOW risk). -/
theorem spec_C1 (g : DependencyGraph) (vga vver tver : String)
    (apv : String → Option (List String)) (n : DependencyNode) (p : String)
    (ps : List String)
    (h1 : lookupGA g.nodes vga = some n)
    (h2 : n.is_direct = false)
    (h3 : n.parents = p :: ps) :
    (∀ v vs, apv p = some (v :: vs) →
      (splitOnChar ':' p.toList).length = 2 →
      ∃ r, get_upgrade_strategy g vga vver tver apv = some r ∧
        r.strategy = UpgradeStrategy.PARENT_UPGRADE ∧
        r.risk_level = "LOW" ∧ r.upgrade_target_ga = p ∧
        r.upgrade_target_version = v ∧ r.parent_to_upgrade = some p) ∧
    ((apv p = none ∨ apv p = some []) →
      ∀ bp, lookupProp SPRING_BOOT_BOM_PROPERTIES vga = some bp →
      ∃ r, get_upgrade_strategy g vga vver tver apv = some r ∧
        r.strategy = UpgradeStrategy.BOM_OVERRIDE ∧
        r.risk_level = (if is_same_major_minor vver tver then "LOW"
          else "MEDIUM") ∧
        r.upgrade_target_ga = vga ∧ r.upgrade_target_version = tver) ∧
    ((apv p = none ∨ apv p = some []) →
      lookupProp SPRING_BOOT_BOM_PROPERTIES vga = none →
      is_same_major_minor vver tver = true →
      (splitOnChar ':' vga.toList).length = 2 →
      ∃ r, get_upgrade_strategy g vga vver tver apv = some r ∧
        r.strategy = UpgradeStrategy.FORCE_OVERRIDE ∧
        r.risk_level = "MEDIUM" ∧
        r.upgrade_target_ga = vga ∧ r.upgrade_target_version = tver) ∧
    ((apv p = none ∨ apv p = some []) →
      lookupProp SPRING_BOOT_BOM_PROPERTIES vga = none →
      is_same_major_minor vver tver = false →
      is_same_major vver tver = true →
      (splitOnChar ':' vga.toList).length = 2 →
      ∃ r, get_upgrade_strategy g vga vver tver apv = some r ∧
        r.strategy = UpgradeStrategy.FORCE_OVERRIDE ∧
        r.risk_level = "HIGH" ∧
        r.upgrade_target_ga = vga ∧ r.upgrade_target_version = tver) ∧
    ((apv p = none ∨ apv p = some []) →
      lookupProp SPRING_BOOT_BOM_PROPERTIES vga = none →
      is_same_major_minor vver tver = false →
      is_same_major vver tver = false →
      ∃ r, get_upgrade_strategy g vga vver tver apv = some r ∧
        r.strategy = UpgradeStrategy.CANNOT_UPGRADE ∧
        r.risk_level = "CRITICAL" ∧
        r.upgrade_target_ga = vga ∧ r.upgrade_target_version = tver) ∧
    ((lookupGA (parse_tree_text sample_tree).nodes
        "org.apache.tomcat.embed:tomcat-embed-core").map
      (fun m => (m.depth, m.is_direct, m.parents)) =
      some (2, false,
        ["org.springframework.boot:spring-boot-starter-tomcat"])) ∧
    ((get_upgrade_strategy (parse_tree_text sample_tree)
        "org.apache.tomcat.embed:tomcat-embed-core" "10.1.42" "10.1.45"
        (fun _ => none)).map (fun r => (r.strategy, r.risk_level)) =
      some (UpgradeStrategy.BOM_OVERRIDE, "LOW")) := by
  obtain ⟨di, hdi, hdd, hdp, _⟩ := get_dependency_info_eq h1
  have hred : get_upgrade_strategy g vga vver tver apv =
      analyze_transitive_upgrade g vga vver tver di apv := by
    unfold get_upgrade_strategy
    rw [hdi]
    dsimp only
    rw [hdd, h2]
    simp only [Bool.false_eq_true, if_false]
  have hpar : di.parents = p :: ps := hdp.trans h3
  refine ⟨?_, ?_, ?_, ?_, ?_, by decide, by decide⟩
  · intro v vs hv hp
    rw [hred]
    unfold analyze_transitive_upgrade
    rw [hpar]
    dsimp only
    rw [hv]
    dsimp only
    obtain ⟨x, y, hxy⟩ := List.length_eq_two.mp hp
    unfold create_parent_upgrade splitTwo
    rw [hxy]
    exact ⟨_, rfl, rfl, rfl, rfl, rfl, rfl⟩
  · intro hnp bp hbom
    obtain ⟨a, ha⟩ := bom_key_parts hbom
    rw [hred]
    unfold analyze_transitive_upgrade
    rw [hpar]
    dsimp only
    rcases hnp with hnp | hnp <;>
      (rw [hnp]
       dsimp only
       rw [hbom]
       dsimp only
       unfold create_bom_override
       rw [ha]
       exact ⟨_, rfl, rfl, rfl, rfl, rfl⟩)
  · intro hnp hbom hsm hsplit
    obtain ⟨x, y, hxy⟩ := List.length_eq_two.mp hsplit
    rw [hred]
    unfold analyze_transitive_upgrade
    rw [hpar]
    dsimp only
    rcases hnp with hnp | hnp <;>
      (rw [hnp]
       dsimp only
       rw [hbom]
       dsimp only
       rw [hsm]
       simp only [if_true]
       unfold create_force_override splitTwo
       rw [hxy]
       exact ⟨_, rfl, rfl, rfl, rfl, rfl⟩)
  · intro hnp hbom hsm hsm2 hsplit
    obtain ⟨x, y, hxy⟩ := List.length_eq_two.mp hsplit
    rw [hred]
    unfold analyze_transitive_upgrade
    rw [hpar]
    dsimp only
    rcases hnp with hnp | hnp <;>
      (rw [hnp]
       dsimp only
       rw [hbom]
       dsimp only
       rw [hsm, hsm2]
       simp only [Bool.false_eq_true, if_false, if_true]
       unfold create_force_override splitTwo
       rw [hxy]
       exact ⟨_, rfl, rfl, rfl, rfl, rfl⟩)
  · intro hnp hbom hsm hsm2
    rw [hred]
    unfold analyze_transitive_upgrade
    rw [hpar]
    dsimp only
    rcases hnp with hnp | hnp <;>
      (rw [hnp]
       dsimp only
       rw [hbom]
       dsimp only
       rw [hsm, hsm2]
       simp only [Bool.false_eq_true, if_false]
       exact ⟨_, rfl, rfl, rfl, rfl, rfl⟩)

/-- Witness for C1 at a concrete input: branch (e) of the cascade. -/
theorem spec_C1_witness :
    ∃ r, get_upgrade_strategy
        { nodes := [("x:y", { ga := "x:y", version := "1.0.0",
                              is_direct := false, parents := ["p:q"] })],
          root_project := none }
        "x:y" "1.0.0" "2.0.0" (fun _ => none) = some r ∧
      r.strategy = UpgradeStrategy.CANNOT_UPGRADE ∧
      r.risk_level = "CRITICAL" ∧
      r.upgrade_target_ga = "x:y" ∧ r.upgrade_target_version = "2.0.0" :=
  (spec_C1
      { nodes := [("x:y", { ga := "x:y", version := "1.0.0",
                            is_direct := false, parents := ["p:q"] })],
        root_project := none }
      "x:y" "1.0.0" "2.0.0" (fun _ => none)
      { ga := "x:y", version := "1.0.0", is_direct := false,
        parents := ["p:q"] }
      "p:q" [] rfl rfl rfl).2.2.2.2.1 (Or.inl rfl) (by decide) (by decide)
      (by decide)

/-! ## C6: the score formulas and their range -/

theorem maxDegreeOf_calculate_scores (pre : List (String × DependencyNode)) :
    maxDegreeOf (calculate_scores pre) = maxDegreeOf pre := by
  unfold calculate_scores
  split
  · rfl
  · unfold maxDegreeOf
    congr 1
    rw [List.map_map]
    congr 1

theorem maxDepthRawOf_calculate_scores (pre : List (String × DependencyNode)) :
    maxDepthRawOf (calculate_scores pre) = maxDepthRawOf pre := by
  unfold calculate_scores
  split
  · rfl
  · unfold maxDepthRawOf
    congr 1
    rw [List.map_map]
    congr 1

/-- C6: after parsing, every node's centrality score is its degree over
the maximum degree (floored at 1), its impact score is the clamped
product `centrality * (1 - 0.5 * depth/(max_depth + 1)) * boost`, and
both scores lie in `[0, 1]`. -/
theorem spec_C6 (text : String) (k : String) (n : DependencyNode)
    (h : (k, n) ∈ (parse_tree_text text).nodes) :
    n.centrality_score =
      (degreeOf n : ℚ) / (maxDegreeOf (parse_tree_text text).nodes : ℚ) ∧
    n.impact_score = min 1 (max 0 (n.centrality_score *
      (1 - (1 / 2) * ((n.depth : ℚ) /
        ((maxDepthRawOf (parse_tree_text text).nodes : ℚ) + 1))) *
      (if n.is_direct then 12 / 10 else 1))) ∧
    0 ≤ n.centrality_score ∧ n.centrality_score ≤ 1 ∧
    0 ≤ n.impact_score ∧ n.impact_score ≤ 1 := by
  rw [parse_tree_text_eq] at h ⊢
  dsimp only at h ⊢
  rw [maxDegreeOf_calculate_scores, maxDepthRawOf_calculate_scores]
  set pre := ((entriesOf text).foldl processEntry {}).nodes with hpre
  unfold calculate_scores at h
  by_cases hemp : pre.isEmpty
  · rw [List.isEmpty_iff.mp hemp] at h
    simp at h
  · rw [if_neg (by simpa using hemp)] at h
    dsimp only at h
    set M1 := max ((pre.map
      (fun kn => kn.2.parents.length + kn.2.children.length)).foldl max 0) 1
      with hM1
    set M2 := max ((pre.map (fun kn => kn.2.depth)).foldl max 0) 1 with hM2
    obtain ⟨⟨k0, m⟩, hmem, heq⟩ := List.mem_map.mp h
    have hn : n = scoreNode M1 M2 m := (congrArg Prod.snd heq).symm
    have hc : n.centrality_score = (degreeOf m : ℚ) / (M1 : ℚ) := by
      rw [hn]
      rfl
    have himp : n.impact_score = min 1 (max 0 ((degreeOf m : ℚ) / (M1 : ℚ) *
        (1 - (m.depth : ℚ) / ((M2 : ℚ) + 1) * (1 / 2)) *
        (if m.is_direct then (12 : ℚ) / 10 else 1))) := by
      rw [hn]
      rfl
    have hdeg : degreeOf n = degreeOf m := by
      rw [hn]
      rfl
    have hdep : n.depth = m.depth := by
      rw [hn]
      rfl
    have hdir : n.is_direct = m.is_direct := by
      rw [hn]
      rfl
    have hMD : maxDegreeOf pre = M1 := rfl
    have hdegmem : degreeOf m ≤ (pre.map
        (fun kn => kn.2.parents.length + kn.2.children.length)).foldl max 0 := by
      have := le_foldl_max (List.mem_map_of_mem
        (fun kn => kn.2.parents.length + kn.2.children.length) hmem) 0
      exact this
    have hdegM1 : degreeOf m ≤ M1 := le_trans hdegmem (le_max_left _ 1)
    have hM1pos : (0 : ℚ) < (M1 : ℚ) := by
      have : 1 ≤ M1 := le_max_right _ 1
      exact_mod_cast Nat.lt_of_lt_of_le Nat.zero_lt_one this
    refine ⟨?_, ?_, ?_, ?_, ?_, ?_⟩
    · rw [hc, hdeg, hMD]
    · rw [himp, hc, hdep, hdir]
      have hdepmem : m.depth ≤ (pre.map (fun kn => kn.2.depth)).foldl max 0 := by
        have := le_foldl_max (List.mem_map_of_mem
          (fun kn => kn.2.depth) hmem) 0
        exact this
      rcases Nat.eq_zero_or_pos ((pre.map (fun kn => kn.2.depth)).foldl max 0)
          with hR | hR
      · have hdz : m.depth = 0 := Nat.le_zero.mp (hR ▸ hdepmem)
        have hRz : maxDepthRawOf pre = 0 := hR
        rw [hdz, hRz]
        norm_num
      · have hM2R : M2 = maxDepthRawOf pre := Nat.max_eq_left hR
        rw [hM2R]
        congr 1
        congr 1
        ring
    · rw [hc]
      exact div_nonneg (Nat.cast_nonneg _) (Nat.cast_nonneg _)
    · rw [hc]
      rw [div_le_one hM1pos]
      exact_mod_cast hdegM1
    · rw [himp]
      exact le_min zero_le_one (le_max_left 0 _)
    · rw [himp]
      exact min_le_left _ _

/-- Witness for C6 at a concrete input. -/
theorem spec_C6_witness :
    ∃ n, ("a:b", n) ∈ (parse_tree_text "a:b:1.0\n├── c:d:2.0").nodes ∧
      n.centrality_score = (degreeOf n : ℚ) /
        (maxDegreeOf (parse_tree_text "a:b:1.0\n├── c:d:2.0").nodes : ℚ) ∧
      0 ≤ n.centrality_score ∧ n.centrality_score ≤ 1 ∧
      0 ≤ n.impact_score ∧ n.impact_score ≤ 1 := by
  have hs : (lookupGA (parse_tree_text "a:b:1.0\n├── c:d:2.0").nodes
      "a:b").isSome = true := by decide
  obtain ⟨n, hn⟩ := Option.isSome_iff_exists.mp hs
  have hmem := lookupGA_mem hn
  obtain ⟨h1, _, h3, h4, h5, h6⟩ := spec_C6 _ "a:b" n hmem
  exact ⟨n, hmem, h1, h3, h4, h5, h6⟩

/-! ## C10: the root counts as a direct dependency -/


theorem cores_calculate_scores (pre : List (String × DependencyNode)) :
    (calculate_scores pre).map coreOf = pre.map coreOf := by
  unfold calculate_scores
  split
  · rfl
  · rw [List.map_map]
    congr 1

theorem inv10_init (ga0 version : String) :
    Inv10 ga0 (processEntry {} (0, ga0, version)) := by
  rw [processEntry_zero]
  have hnodes : (add_node {} ga0 version 0 true none).nodes =
      [(ga0, { ga := ga0, version := version, depth := 0,
               is_direct := true })] := rfl
  refine ⟨rfl, ?_, ?_, ?_⟩
  · refine ⟨{ ga := ga0, version := version, depth := 0,
              is_direct := true }, ?_, rfl, rfl⟩
    rw [hnodes]
    simp [lookupGA]
  · intro kn hk
    rw [hnodes] at hk
    simp at hk
    simp [hk]
  · rw [hnodes]
    simp [List.countP_cons]

theorem inv10_step {ga0 : String} {s : ParseState} (hinv : Inv10 ga0 s)
    (e : ParseEntry) (he : e.1 ≠ 0) : Inv10 ga0 (processEntry s e) := by
  obtain ⟨d, ga, version⟩ := e
  have hd : d ≠ 0 := he
  rw [processEntry_pos s hd]
  obtain ⟨hroot, ⟨r, hr, hrd, hrz⟩, hall, hcount⟩ := hinv
  have hcores := cores_add_node s ga version d (decide (d = 1))
    (s.depth_parents (d - 1))
  obtain ⟨r', hr', _, _, hrd', hri', _, _, _⟩ :=
    add_node_preserves hr ga version d (decide (d = 1))
      (s.depth_parents (d - 1))
  refine ⟨hroot, ⟨r', hr', by rw [hri', hrd], by rw [hrd', hrz]⟩, ?_, ?_⟩
  · intro kn' hk
    have hmm : coreOf kn' ∈
        (add_node s ga version d (decide (d = 1))
          (s.depth_parents (d - 1))).nodes.map coreOf :=
      List.mem_map_of_mem _ hk
    rw [hcores] at hmm
    split at hmm
    · obtain ⟨kn, hkn, hc⟩ := List.mem_map.mp hmm
      have hdep : kn.2.depth = kn'.2.depth := congrArg (fun c => c.2.2.1) hc
      have hdir : kn.2.is_direct = kn'.2.is_direct :=
        congrArg (fun c => c.2.2.2) hc
      rw [← hdir, ← hdep]
      exact hall kn hkn
    · rcases List.mem_append.mp hmm with hmm | hmm
      · obtain ⟨kn, hkn, hc⟩ := List.mem_map.mp hmm
        have hdep : kn.2.depth = kn'.2.depth := congrArg (fun c => c.2.2.1) hc
        have hdir : kn.2.is_direct = kn'.2.is_direct :=
          congrArg (fun c => c.2.2.2) hc
        rw [← hdir, ← hdep]
        exact hall kn hkn
      · simp only [List.mem_singleton] at hmm
        have hdep : kn'.2.depth = d := congrArg (fun c => c.2.2.1) hmm
        have hdir : kn'.2.is_direct = decide (d = 1) :=
          congrArg (fun c => c.2.2.2) hmm
        rw [hdir, hdep]
        rw [decide_eq_decide]
        omega
  · have h1 : ((add_node s ga version d (decide (d = 1))
        (s.depth_parents (d - 1))).nodes.map coreOf).countP
          (fun c => decide (c.2.2.1 = 0)) =
        s.nodes.countP (fun kn => decide (kn.2.depth = 0)) := by
      rw [hcores]
      split
      · rw [List.countP_map]
        rfl
      · rw [List.countP_append, List.countP_map]
        simp [hd]
        rfl
    rw [List.countP_map] at h1
    exact h1.trans hcount

theorem inv10_fold {ga0 : String} (es : List ParseEntry) (s : ParseState)
    (hinv : Inv10 ga0 s) (hes : ∀ e ∈ es, e.1 ≠ 0) :
    Inv10 ga0 (es.foldl processEntry s) := by
  induction es generalizing s with
  | nil => exact hinv
  | cons e rest ih =>
    exact ih _ (inv10_step hinv e (hes e (List.mem_cons_self e rest)))
      (fun x hx => hes x (List.mem_cons_of_mem e hx))

theorem countP_depth_split (l : List (String × DependencyNode)) :
    l.countP (fun kn => decide (kn.2.depth ≤ 1)) =
      l.countP (fun kn => decide (kn.2.depth = 0)) +
      l.countP (fun kn => decide (kn.2.depth = 1)) := by
  induction l with
  | nil => rfl
  | cons kn rest ih =>
    by_cases d0 : kn.2.depth = 0 <;> by_cases d1 : kn.2.depth = 1 <;>
      simp [List.countP_cons, ih, d0, d1] <;> omega

/-- C10: after parsing a tree whose first extracted line is the (sole)
depth-0 root declaration, the root node is stored with
`is_direct = true` at depth 0, appears in the summary's
`direct_dependencies` map, and `direct_count` equals the number of
depth-1 nodes plus one for the root. -/
theorem spec_C10 (text : String) (e0 : ParseEntry) (rest : List ParseEntry)
    (h1 : entriesOf text = e0 :: rest) (h2 : e0.1 = 0)
    (h3 : ∀ e ∈ rest, e.1 ≠ 0) :
    ∃ s, get_llm_summary (parse_tree_text text) = SummaryResult.ok s ∧
      (parse_tree_text text).root_project = some e0.2.1 ∧
      (∃ rn, lookupGA (parse_tree_text text).nodes e0.2.1 = some rn ∧
        rn.is_direct = true ∧ rn.depth = 0) ∧
      e0.2.1 ∈ s.direct_dependencies.map Prod.fst ∧
      s.direct_count = 1 + (parse_tree_text text).nodes.countP
        (fun kn => decide (kn.2.depth = 1)) := by
  obtain ⟨d0, ga0, v0⟩ := e0
  dsimp only at h2 ⊢
  subst h2
  have hfin : Inv10 ga0 ((entriesOf text).foldl processEntry {}) := by
    rw [h1, List.foldl_cons]
    exact inv10_fold rest _ (inv10_init ga0 v0) h3
  obtain ⟨hroot, ⟨r, hr, hrd, hrz⟩, hall, hcount⟩ := hfin
  have hgnodes : (parse_tree_text text).nodes =
      calculate_scores ((entriesOf text).foldl processEntry {}).nodes := by
    rw [parse_tree_text_eq]
  have hgroot : (parse_tree_text text).root_project = some ga0 := by
    rw [parse_tree_text_eq]
    exact hroot
  have hcores : (parse_tree_text text).nodes.map coreOf =
      ((entriesOf text).foldl processEntry {}).nodes.map coreOf := by
    rw [hgnodes, cores_calculate_scores]
  obtain ⟨M1, M2, hL⟩ :=
    calculate_scores_lookup ((entriesOf text).foldl processEntry {}).nodes ga0
  have hrg : lookupGA (parse_tree_text text).nodes ga0 =
      some (scoreNode M1 M2 r) := by
    rw [hgnodes, hL, hr]
    rfl
  have hallg : ∀ kn ∈ (parse_tree_text text).nodes,
      kn.2.is_direct = decide (kn.2.depth ≤ 1) := by
    intro kn' hk
    have hmm : coreOf kn' ∈ (parse_tree_text text).nodes.map coreOf :=
      List.mem_map_of_mem _ hk
    rw [hcores] at hmm
    obtain ⟨kn, hkn, hc⟩ := List.mem_map.mp hmm
    have hdep : kn.2.depth = kn'.2.depth := congrArg (fun c => c.2.2.1) hc
    have hdir : kn.2.is_direct = kn'.2.is_direct :=
      congrArg (fun c => c.2.2.2) hc
    rw [← hdir, ← hdep]
    exact hall kn hkn
  have hcountg : (parse_tree_text text).nodes.countP
      (fun kn => decide (kn.2.depth = 0)) = 1 := by
    have hx : ((parse_tree_text text).nodes.map coreOf).countP
        (fun c => decide (c.2.2.1 = 0)) =
        (((entriesOf text).foldl processEntry {}).nodes.map coreOf).countP
        (fun c => decide (c.2.2.1 = 0)) := by rw [hcores]
    rw [List.countP_map, List.countP_map] at hx
    exact hx.trans hcount
  have hne : (parse_tree_text text).nodes.isEmpty = false := by
    cases hx : (parse_tree_text text).nodes with
    | nil =>
      rw [hx] at hrg
      exact Option.noConfusion hrg
    | cons a l => rfl
  unfold get_llm_summary
  simp only [hne, Bool.false_eq_true, if_false]
  refine ⟨_, rfl, hgroot, ⟨scoreNode M1 M2 r, hrg, hrd, hrz⟩, ?_, ?_⟩
  · dsimp only
    refine List.mem_map.mpr ⟨(ga0, to_dict (scoreNode M1 M2 r)), ?_, rfl⟩
    refine List.mem_map.mpr ⟨(ga0, scoreNode M1 M2 r), ?_, rfl⟩
    exact List.mem_filter.mpr ⟨lookupGA_mem hrg, hrd⟩
  · dsimp only
    rw [List.length_map, ← List.countP_eq_length_filter]
    have hcong : (parse_tree_text text).nodes.countP
        (fun kn => kn.2.is_direct) =
        (parse_tree_text text).nodes.countP
        (fun kn => decide (kn.2.depth ≤ 1)) := by
      apply List.countP_congr
      intro kn hk
      simp [hallg kn hk]
    rw [hcong, countP_depth_split, hcountg]

/-- Witness for C10 at a concrete input. -/
theorem spec_C10_witness :
    ∃ s, get_llm_summary (parse_tree_text "a:b:1.0\n├── c:d:2.0") =
        SummaryResult.ok s ∧
      (parse_tree_text "a:b:1.0\n├── c:d:2.0").root_project = some "a:b" ∧
      (∃ rn, lookupGA (parse_tree_text "a:b:1.0\n├── c:d:2.0").nodes "a:b" =
        some rn ∧ rn.is_direct = true ∧ rn.depth = 0) ∧
      "a:b" ∈ s.direct_dependencies.map Prod.fst ∧
      s.direct_count = 1 +
        (parse_tree_text "a:b:1.0\n├── c:d:2.0").nodes.countP
          (fun kn => decide (kn.2.depth = 1)) :=
  spec_C10 "a:b:1.0\n├── c:d:2.0" (0, "a:b", "1.0") [(1, "c:d", "2.0")]
    (by decide) rfl (by decide)

/-! ## C5: depths and parents of parsed nodes (corrected) -/

/-- Counterexample to C5 as stated: a line two levels deeper than the
root finds no chain entry at depth 1, so the non-root node `c:d` ends
the parse with depth 2 but no parent at all. -/
theorem spec_C5_counterexample :
    (parse_tree_text "a:b:1.0\n│   ├── c:d:2.0").root_project =
      some "a:b" ∧
    (lookupGA (parse_tree_text "a:b:1.0\n│   ├── c:d:2.0").nodes "c:d").map
      (fun n => (n.depth, n.parents)) = some (2, []) := by
  exact ⟨by decide, by decide⟩


theorem inv5_init {ga0 : String} (hga0 : ga0 ≠ "") (version : String) :
    Inv5 ga0 0 (processEntry {} (0, ga0, version)) := by
  rw [processEntry_zero]
  have hnodes : (add_node {} ga0 version 0 true none).nodes =
      [(ga0, { ga := ga0, version := version, depth := 0,
               is_direct := true })] := rfl
  refine ⟨rfl, ?_, ?_, ?_, ?_, ?_⟩
  · refine ⟨{ ga := ga0, version := version, depth := 0,
              is_direct := true }, ?_, rfl, rfl⟩
    rw [hnodes]
    simp [lookupGA]
  · intro kn hk hne
    rw [hnodes] at hk
    simp at hk
    exact absurd (congrArg Prod.fst hk) hne
  · rw [hnodes]
    simp
  · intro d hd
    simp at hd
    simp [hd]
  · intro d p hp
    by_cases hd : d = 0
    · subst hd
      simp at hp
      subst hp
      exact hga0
    · simp [hd] at hp

theorem inv5_step {ga0 : String} {D : Nat} {s : ParseState}
    (hinv : Inv5 ga0 D s) {d : Nat} {ga version : String} (hd : d ≠ 0)
    (hdD : d ≤ D + 1) (hga : ga ≠ ga0) (hga' : ga ≠ "") :
    Inv5 ga0 d (processEntry s (d, ga, version)) := by
  rw [processEntry_pos s hd]
  obtain ⟨hroot, ⟨r, hr, hrz, hrp⟩, hall, hnd, hdpfull, hdpne⟩ := hinv
  have hps : (s.depth_parents (d - 1)).isSome := hdpfull _ (by omega)
  obtain ⟨p, hp⟩ := Option.isSome_iff_exists.mp hps
  have hpne : p ≠ "" := hdpne _ _ hp
  have hnd' := nodupKeys_add_node hnd ga version d (decide (d = 1))
    (s.depth_parents (d - 1))
  obtain ⟨r', hr', _, _, hrd', _, _, _, hrpar⟩ :=
    add_node_preserves hr ga version d (decide (d = 1))
      (s.depth_parents (d - 1))
  refine ⟨hroot,
    ⟨r', hr', by rw [hrd', hrz], by rw [hrpar (fun he => hga he.symm), hrp]⟩,
    ?_, hnd', ?_, ?_⟩
  · intro kn hk hne
    have hlk : lookupGA (add_node s ga version d (decide (d = 1))
        (s.depth_parents (d - 1))).nodes kn.1 = some kn.2 := by
      obtain ⟨k1, n1⟩ := kn
      exact lookupGA_of_mem_nodup hnd' hk
    by_cases hkga : kn.1 = ga
    · cases hn0 : lookupGA s.nodes ga with
      | none =>
        obtain ⟨n', hn', _, _, hdep', _, hpar', _⟩ :=
          add_node_lookup_new hn0 version d (decide (d = 1))
            (s.depth_parents (d - 1))
        rw [hkga] at hlk
        rw [hlk] at hn'
        have hkn2 : kn.2 = n' := Option.some.inj hn'
        constructor
        · rw [hkn2, hdep']
          omega
        · rw [hkn2, hpar', hp]
          simp [hpne]
      | some n0 =>
        have hmem0 := lookupGA_mem hn0
        have h0 := hall (ga, n0) hmem0 (by simpa using hga)
        obtain ⟨n', hn', _, _, hdep', _, hpar', _, _⟩ :=
          add_node_preserves hn0 ga version d (decide (d = 1))
            (s.depth_parents (d - 1))
        rw [hkga] at hlk
        rw [hlk] at hn'
        have hkn2 : kn.2 = n' := Option.some.inj hn'
        constructor
        · rw [hkn2, hdep']
          exact h0.1
        · rw [hkn2]
          rcases hpar' with hh | ⟨q, _, hh⟩
          · rw [hh]
            exact h0.2
          · rw [hh]
            simp
    · cases hn0 : lookupGA s.nodes kn.1 with
      | none =>
        have := add_node_lookup_none hkga hn0 version d (decide (d = 1))
          (s.depth_parents (d - 1))
        rw [hlk] at this
        exact Option.noConfusion this
      | some n0 =>
        have hmem0 := lookupGA_mem hn0
        have h0 := hall (kn.1, n0) hmem0 hne
        obtain ⟨n', hn', _, _, hdep', _, hpar', _, _⟩ :=
          add_node_preserves hn0 ga version d (decide (d = 1))
            (s.depth_parents (d - 1))
        rw [hlk] at hn'
        have hkn2 : kn.2 = n' := Option.some.inj hn'
        constructor
        · rw [hkn2, hdep']
          exact h0.1
        · rw [hkn2]
          rcases hpar' with hh | ⟨q, _, hh⟩
          · rw [hh]
            exact h0.2
          · rw [hh]
            simp
  · intro d' hd'
    dsimp only
    by_cases h1 : d' = d
    · simp [h1]
    · have h2 : ¬d < d' := by omega
      have h3 : d' ≤ D := by omega
      simp [h1, h2]
      exact hdpfull _ (by omega)
  · intro d' q hq
    dsimp only at hq
    by_cases h1 : d' = d
    · rw [if_pos h1] at hq
      cases hq
      exact hga'
    · rw [if_neg h1] at hq
      by_cases h2 : d < d'
      · rw [if_pos h2] at hq
        exact Option.noConfusion hq
      · rw [if_neg h2] at hq
        exact hdpne _ _ hq

theorem inv5_fold {ga0 : String} (es : List ParseEntry) (s : ParseState)
    (D : Nat) (hinv : Inv5 ga0 D s)
    (hes : ∀ e ∈ es, e.1 ≠ 0 ∧ e.2.1 ≠ ga0 ∧ e.2.1 ≠ "")
    (hdok : depthOk D es = true) :
    ∃ D', Inv5 ga0 D' (es.foldl processEntry s) := by
  induction es generalizing s D with
  | nil => exact ⟨D, hinv⟩
  | cons e rest ih =>
    obtain ⟨d, ga, v⟩ := e
    simp only [depthOk, Bool.and_eq_true, decide_eq_true_eq] at hdok
    obtain ⟨h01, h02, h03⟩ := hes (d, ga, v) (List.mem_cons_self _ _)
    rw [List.foldl_cons]
    exact ih _ _ (inv5_step hinv h01 hdok.1 h02 h03)
      (fun x hx => hes x (List.mem_cons_of_mem _ hx)) hdok.2

theorem extract_ga_ne_empty {line : List Char} {ga v : String}
    (h : extract_ga_version line = some (ga, v)) : ga ≠ "" := by
  unfold extract_ga_version at h
  dsimp only at h
  split at h
  · exact Option.noConfusion h
  · split at h
    · rename_i g a r rs heq
      have hga : ga = String.mk (g ++ ':' :: a) :=
        (congrArg Prod.fst (Option.some.inj h)).symm
      rw [hga]
      intro hh
      have : (g ++ ':' :: a) = [] := by
        have := congrArg String.data hh
        simpa using this
      simp at this
    · exact Option.noConfusion h

theorem entriesOf_key_ne_empty (text : String) :
    ∀ e ∈ entriesOf text, e.2.1 ≠ "" := by
  intro e he
  unfold entriesOf at he
  obtain ⟨line, _, hE⟩ := List.mem_filterMap.mp he
  unfold entryOf at hE
  split at hE
  · exact Option.noConfusion hE
  · cases hx : extract_ga_version line with
    | none =>
      rw [hx] at hE
      exact Option.noConfusion hE
    | some gv =>
      rw [hx] at hE
      obtain ⟨g0, v0⟩ := gv
      have he2 : e = (calculate_depth line, g0, v0) :=
        (Option.some.inj hE).symm
      rw [he2]
      exact extract_ga_ne_empty hx

theorem mem_calculate_scores {pre : List (String × DependencyNode)}
    {kn' : String × DependencyNode} (h : kn' ∈ calculate_scores pre) :
    ∃ kn ∈ pre, kn'.1 = kn.1 ∧ kn'.2.depth = kn.2.depth ∧
      kn'.2.parents = kn.2.parents := by
  unfold calculate_scores at h
  split at h
  · exact ⟨kn', h, rfl, rfl, rfl⟩
  · obtain ⟨kn, hkn, heq⟩ := List.mem_map.mp h
    rw [← heq]
    exact ⟨kn, hkn, rfl, rfl, rfl⟩

/-- C5 (amended): for a tree whose extracted entries start with a
single depth-0 root line, whose later entries all have positive depth
increasing by at most one per step, and whose root key never reappears,
every non-root node of the parsed graph has depth ≥ 1 and at least one
parent, and the root node has depth 0 and no parent. -/
theorem spec_C5 (text : String) (e0 : ParseEntry) (rest : List ParseEntry)
    (h1 : entriesOf text = e0 :: rest) (h2 : e0.1 = 0)
    (h3 : ∀ e ∈ rest, e.1 ≠ 0) (h4 : ∀ e ∈ rest, e.2.1 ≠ e0.2.1)
    (h5 : depthOk 0 rest = true) :
    (parse_tree_text text).root_project = some e0.2.1 ∧
    (∃ r, lookupGA (parse_tree_text text).nodes e0.2.1 = some r ∧
      r.depth = 0 ∧ r.parents = []) ∧
    (∀ kn ∈ (parse_tree_text text).nodes, kn.1 ≠ e0.2.1 →
      1 ≤ kn.2.depth ∧ kn.2.parents ≠ []) := by
  obtain ⟨d0, ga0, v0⟩ := e0
  dsimp only at h2 h4 ⊢
  subst h2
  have hga0ne : ga0 ≠ "" := by
    have : ((0 : Nat), ga0, v0) ∈ entriesOf text := by
      rw [h1]
      exact List.mem_cons_self _ _
    exact entriesOf_key_ne_empty text _ this
  have hfin : ∃ D', Inv5 ga0 D'
      ((entriesOf text).foldl processEntry {}) := by
    rw [h1, List.foldl_cons]
    refine inv5_fold rest _ 0 (inv5_init hga0ne v0) ?_ h5
    intro e he
    refine ⟨h3 e he, h4 e he, ?_⟩
    refine entriesOf_key_ne_empty text _ ?_
    rw [h1]
    exact List.mem_cons_of_mem _ he
  obtain ⟨D', hroot, ⟨r, hr, hrz, hrp⟩, hall, _, _, _⟩ := hfin
  have hgnodes : (parse_tree_text text).nodes =
      calculate_scores ((entriesOf text).foldl processEntry {}).nodes := by
    rw [parse_tree_text_eq]
  refine ⟨?_, ?_, ?_⟩
  · rw [parse_tree_text_eq]
    exact hroot
  · obtain ⟨M1, M2, hL⟩ :=
      calculate_scores_lookup ((entriesOf text).foldl processEntry {}).nodes ga0
    refine ⟨scoreNode M1 M2 r, ?_, hrz, hrp⟩
    rw [hgnodes, hL, hr]
    rfl
  · intro kn hk hne
    rw [hgnodes] at hk
    obtain ⟨kn0, hkn0, hkey, hdep, hpar⟩ := mem_calculate_scores hk
    have h0 := hall kn0 hkn0 (by rw [← hkey]; exact hne)
    rw [hdep, hpar]
    exact h0

/-- Witness for C5 at a concrete input. -/
theorem spec_C5_witness :
    (parse_tree_text "a:b:1.0\n├── c:d:2.0").root_project = some "a:b" ∧
    (∃ r, lookupGA (parse_tree_text "a:b:1.0\n├── c:d:2.0").nodes "a:b" =
      some r ∧ r.depth = 0 ∧ r.parents = []) ∧
    (∀ kn ∈ (parse_tree_text "a:b:1.0\n├── c:d:2.0").nodes,
      kn.1 ≠ "a:b" → 1 ≤ kn.2.depth ∧ kn.2.parents ≠ []) :=
  spec_C5 "a:b:1.0\n├── c:d:2.0" (0, "a:b", "1.0") [(1, "c:d", "2.0")]
    (by decide) rfl (by decide) (by decide) (by decide)

/-- Counterexample to C10 as stated: when a *second* depth-0 line
follows the root line, both depth-0 nodes are stored direct, so
`direct_count` is 2 although there is no depth-1 node — the count is
not "number of depth-1 nodes plus one". -/
theorem spec_C10_counterexample :
    ∃ s, get_llm_summary (parse_tree_text "a:b:1.0\nc:d:2.0") =
        SummaryResult.ok s ∧
      s.direct_count = 2 ∧
      (parse_tree_text "a:b:1.0\nc:d:2.0").nodes.countP
        (fun kn => decide (kn.2.depth = 1)) = 0 := by
  unfold get_llm_summary
  rw [show (parse_tree_text "a:b:1.0\nc:d:2.0").nodes.isEmpty = false from
    by decide]
  simp only [Bool.false_eq_true, if_false]
  refine ⟨_, rfl, ?_, by decide⟩
  dsimp only
  rw [List.length_map]
  decide
